import Mathlib

/-!
Verification of redgit's branch-isolation commit engine and changeset
inspector (`redgit/core/gitops.py`), over a shallow embedding of the
engine's control flow. The underlying git operations are modelled from the
spec's capability contract (each operation either succeeds, possibly
changing repository state, or raises a catchable error; an environment
parameter `oracle` injects spurious failures, since the engine assumes each
git primitive "either succeeds or raises a catchable error" without
assuming when). The sensitive-file exclusion filter is an external pure
predicate and is kept as an explicit parameter `excl` throughout.
-/

deriving instance DecidableEq for Except

namespace Redgit

/-- A tree: finite map from repository-relative paths to file contents,
as an association list (first binding wins). Used for the working tree,
the index, and the tree snapshot at each branch head. -/
abbrev Tree := List (String × String)

/-- Look up the content of path `p` in a tree (first binding wins). -/
def treeFind : Tree → String → Option String
  | [], _ => none
  | (q, c) :: rest, p => if q = p then some c else treeFind rest p

/-- Set the content of path `p` in a tree, keeping binding order. -/
def treeSet : Tree → String → String → Tree
  | [], p, c => [(p, c)]
  | (q, d) :: rest, p, c => if q = p then (p, c) :: rest else (q, d) :: treeSet rest p c

/-- The git operations the engine attempts, as recorded in the run trace.
Mirrors the capability set of spec section 6. -/
inductive GitOp where
  | stashPush (label : String)
  | stashPop
  | checkoutNew (name base : String)
  | checkout (name : String)
  | resetHead
  | stageFile (path : String)
  | commitOp (message : String)
  | mergeNoFF (branch message : String)
  | mergeFF (branch : String)
  | deleteBranch (name : String)
  deriving DecidableEq, Repr

/-- A raised git error: which operation failed, and at which position in
the operation sequence (so distinct raises are distinguishable and the
engine can be seen to re-raise the original one). -/
structure GitErr where
  op : GitOp
  idx : Nat
  deriving DecidableEq, Repr

/-- The modelled repository: branch heads (name to tree snapshot), the
currently checked out branch, the on-disk working tree, the index, the
stash stack (working tree and index at push time, most recent first), the
log of commits created (message and committed tree), plus the trace of
attempted git operations and an operation counter consumed by the failure
oracle. -/
@[ext]
structure RepoState where
  branches : List (String × Tree)
  current : String
  workTree : Tree
  index : Tree
  stash : List (Tree × Tree)
  commits : List (String × Tree)
  trace : List GitOp
  opCount : Nat
  deriving DecidableEq, Repr

/-- Look up a branch head tree by name. -/
def lookupBranch : List (String × Tree) → String → Option Tree
  | [], _ => none
  | (n, t) :: rest, b => if n = b then some t else lookupBranch rest b

/-- Set (or create) a branch head. -/
def setBranch : List (String × Tree) → String → Tree → List (String × Tree)
  | [], b, t => [(b, t)]
  | (n, u) :: rest, b, t => if n = b then (b, t) :: rest else (n, u) :: setBranch rest b t

/-- Remove a branch. -/
def removeBranch : List (String × Tree) → String → List (String × Tree)
  | [], _ => []
  | (n, u) :: rest, b => if n = b then rest else (n, u) :: removeBranch rest b

/-- Tree at the head of the currently checked out branch; empty when the
branch has no commit yet (invalid HEAD). -/
def RepoState.headTree (s : RepoState) : Tree :=
  (lookupBranch s.branches s.current).getD []

/-- Whether HEAD is valid, i.e. the current branch has a commit. -/
def RepoState.headValid (s : RepoState) : Bool :=
  (lookupBranch s.branches s.current).isSome

/-- The working tree and index both match HEAD (nothing uncommitted). -/
def RepoState.cleanTree (s : RepoState) : Prop :=
  s.workTree = s.headTree ∧ s.index = s.headTree

instance (s : RepoState) : Decidable s.cleanTree := by
  unfold RepoState.cleanTree
  infer_instance

/-- Record an attempted git operation in the trace and advance the
operation counter. Every primitive records its attempt exactly once,
whether it succeeds or fails. -/
def bump (op : GitOp) (s : RepoState) : RepoState :=
  { s with trace := s.trace ++ [op], opCount := s.opCount + 1 }

/-- A failing git operation: the attempt is recorded, the repository is
otherwise unchanged, and a catchable error is raised. -/
def opFail (op : GitOp) (s : RepoState) : Except GitErr Unit × RepoState :=
  (Except.error { op := op, idx := s.opCount }, bump op s)

/-- Modelled from the spec: `git stash push -u -m label`. Succeeds with no
stash entry when the tree is clean (git exits 0 with "No local changes to
save"); otherwise shelves the working tree and index and resets both to
HEAD. The oracle may make it raise instead. -/
def git_stash_push (oracle : Nat → Bool) (label : String) (s : RepoState) :
    Except GitErr Unit × RepoState :=
  let op := GitOp.stashPush label
  if oracle s.opCount then opFail op s
  else if s.cleanTree then (Except.ok (), bump op s)
  else (Except.ok (), { bump op s with
    stash := (s.workTree, s.index) :: s.stash,
    workTree := s.headTree, index := s.headTree })

/-- Modelled from the spec: `git stash pop`. Fails when there is no stash
entry (or by oracle); otherwise restores the most recent entry. -/
def git_stash_pop (oracle : Nat → Bool) (s : RepoState) :
    Except GitErr Unit × RepoState :=
  let op := GitOp.stashPop
  if oracle s.opCount then opFail op s
  else match s.stash with
    | [] => opFail op s
    | (w, i) :: rest =>
      (Except.ok (), { bump op s with workTree := w, index := i, stash := rest })

/-- Modelled from the spec: `git checkout -b name base`. Requires `base`
to exist, `name` not to exist, and `base`'s tree to coincide with the
current head tree (the engine only branches off the commit it stands on);
the working tree and index are carried over unchanged. -/
def git_checkout_new (oracle : Nat → Bool) (name base : String) (s : RepoState) :
    Except GitErr Unit × RepoState :=
  let op := GitOp.checkoutNew name base
  if oracle s.opCount then opFail op s
  else match lookupBranch s.branches base with
    | none => opFail op s
    | some t =>
      if lookupBranch s.branches name = none ∧ t = s.headTree then
        (Except.ok (), { bump op s with
          branches := (name, t) :: s.branches, current := name })
      else opFail op s

/-- Modelled from the spec: `git checkout name` for an existing branch.
Checking out the current branch is a no-op; switching requires a clean
tree (git refuses to overwrite uncommitted work) and loads the target
tree into the working tree and index. -/
def git_checkout (oracle : Nat → Bool) (name : String) (s : RepoState) :
    Except GitErr Unit × RepoState :=
  let op := GitOp.checkout name
  if oracle s.opCount then opFail op s
  else if name = s.current then (Except.ok (), bump op s)
  else match lookupBranch s.branches name with
    | none => opFail op s
    | some t =>
      if s.cleanTree then
        (Except.ok (), { bump op s with current := name, workTree := t, index := t })
      else opFail op s

/-- Modelled from the spec: `git reset HEAD` — unstage everything, making
the index match HEAD. -/
def git_reset_head (oracle : Nat → Bool) (s : RepoState) :
    Except GitErr Unit × RepoState :=
  let op := GitOp.resetHead
  if oracle s.opCount then opFail op s
  else (Except.ok (), { bump op s with index := s.headTree })

/-- Modelled from the spec: stage one file (`index.add`). Fails when the
file is not on disk; otherwise copies its working-tree content into the
index. -/
def git_stage_file (oracle : Nat → Bool) (f : String) (s : RepoState) :
    Except GitErr Unit × RepoState :=
  let op := GitOp.stageFile f
  if oracle s.opCount then opFail op s
  else match treeFind s.workTree f with
    | none => opFail op s
    | some c => (Except.ok (), { bump op s with index := treeSet s.index f c })

/-- Modelled from the spec: `index.commit(message)` — record the index as
the new head tree of the current branch and log the commit. -/
def git_commit (oracle : Nat → Bool) (msg : String) (s : RepoState) :
    Except GitErr Unit × RepoState :=
  let op := GitOp.commitOp msg
  if oracle s.opCount then opFail op s
  else (Except.ok (), { bump op s with
    branches := setBranch s.branches s.current s.index,
    commits := s.commits ++ [(msg, s.index)] })

/-- Modelled from the spec: `git merge branch --no-ff -m msg`. The engine
only merges a branch it just created from the current head, so the merge
takes the branch's tree; a merge commit is logged. Requires a clean tree. -/
def git_merge_noff (oracle : Nat → Bool) (b msg : String) (s : RepoState) :
    Except GitErr Unit × RepoState :=
  let op := GitOp.mergeNoFF b msg
  if oracle s.opCount then opFail op s
  else match lookupBranch s.branches b with
    | none => opFail op s
    | some t =>
      if s.cleanTree then
        (Except.ok (), { bump op s with
          branches := setBranch s.branches s.current t,
          workTree := t, index := t,
          commits := s.commits ++ [(msg, t)] })
      else opFail op s

/-- Modelled from the spec: plain `git merge branch` (fast-forward; no
merge commit is logged). -/
def git_merge_ff (oracle : Nat → Bool) (b : String) (s : RepoState) :
    Except GitErr Unit × RepoState :=
  let op := GitOp.mergeFF b
  if oracle s.opCount then opFail op s
  else match lookupBranch s.branches b with
    | none => opFail op s
    | some t =>
      if s.cleanTree then
        (Except.ok (), { bump op s with
          branches := setBranch s.branches s.current t,
          workTree := t, index := t })
      else opFail op s

/-- Modelled from the spec: `git branch -d name`. Cannot delete the
checked-out branch or a missing branch. -/
def git_delete_branch (oracle : Nat → Bool) (n : String) (s : RepoState) :
    Except GitErr Unit × RepoState :=
  let op := GitOp.deleteBranch n
  if oracle s.opCount then opFail op s
  else if n = s.current then opFail op s
  else match lookupBranch s.branches n with
    | none => opFail op s
    | some _ => (Except.ok (), { bump op s with branches := removeBranch s.branches n })

/-- The filtering precondition of `create_branch_and_commit`:
`safe_files = [f for f in files if not is_excluded(f) and Path(f).exists()]`,
with on-disk existence read from the initial working tree. -/
def safe_files (excl : String → Bool) (s : RepoState) (files : List String) :
    List String :=
  files.filter (fun f => excl f = false ∧ (treeFind s.workTree f).isSome)

/-- Step 2 of `create_branch_and_commit`: create and check out the feature
branch from the base, resolving a name collision by a plain checkout of
the existing branch, then by creating the single suffixed alternate
`branch_name-v2`; a failure of that last attempt propagates. Returns the
actual branch name used. -/
def resolve_branch (oracle : Nat → Bool) (branch_name base : String)
    (s : RepoState) : Except GitErr String × RepoState :=
  match git_checkout_new oracle branch_name base s with
  | (Except.ok _, t) => (Except.ok branch_name, t)
  | (Except.error _, t) =>
    match git_checkout oracle branch_name t with
    | (Except.ok _, u) => (Except.ok branch_name, u)
    | (Except.error _, u) =>
      match git_checkout_new oracle (branch_name ++ "-v2") base u with
      | (Except.ok _, v) => (Except.ok (branch_name ++ "-v2"), v)
      | (Except.error e, v) => (Except.error e, v)

/-- Step 5 of `create_branch_and_commit`: stage each safe file in order,
swallowing the error of any individual staging attempt. -/
def stage_loop (oracle : Nat → Bool) (fs : List String) (s : RepoState) :
    RepoState :=
  match fs with
  | [] => s
  | f :: rest => stage_loop oracle rest (git_stage_file oracle f s).2

/-- Steps 9 and 10 for the local-merge strategy: no-fast-forward merge of
the actual branch with message `Merge actual`, falling back to a plain
merge when the no-ff merge fails (that fallback's failure propagates),
then best-effort deletion of the merged branch. -/
def merge_and_delete (oracle : Nat → Bool) (actual : String) (s : RepoState) :
    Except GitErr Unit × RepoState :=
  match
    (match git_merge_noff oracle actual ("Merge " ++ actual) s with
     | (Except.ok _, t) => (Except.ok (), t)
     | (Except.error _, t) => git_merge_ff oracle actual t) with
  | (Except.error e, t) => (Except.error e, t)
  | (Except.ok _, t) => (Except.ok (), (git_delete_branch oracle actual t).2)

/-- Steps 3 through 11 of `create_branch_and_commit`, entered once the
feature branch is checked out: pop the snapshot stash (if one was
created), reset the index, stage the safe files, commit (fatal on
failure), stash the remaining changes, check out the base branch (fatal
on failure), apply the strategy (merge and delete only when the strategy
string equals "local-merge"), and pop the remaining stash. -/
def cbac_after_branch (oracle : Nat → Bool) (actual : String)
    (stash_created : Bool) (branch_name : String) (safe : List String)
    (message strategy base : String) (s : RepoState) :
    Except GitErr Bool × RepoState :=
  let s3 := if stash_created then (git_stash_pop oracle s).2 else s
  let s4 := (git_reset_head oracle s3).2
  let s5 := stage_loop oracle safe s4
  match git_commit oracle message s5 with
  | (Except.error e, s6) => (Except.error e, s6)
  | (Except.ok _, s6) =>
    let r7 := git_stash_push oracle ("redgit-remaining-" ++ branch_name) s6
    let remaining_stashed := match r7.1 with
      | Except.ok _ => true
      | Except.error _ => false
    match git_checkout oracle base r7.2 with
    | (Except.error e, s8) => (Except.error e, s8)
    | (Except.ok _, s8) =>
      match
        (if strategy = "local-merge" then merge_and_delete oracle actual s8
         else (Except.ok (), s8)) with
      | (Except.error e, s9) => (Except.error e, s9)
      | (Except.ok _, s9) =>
        let s11 := if remaining_stashed then (git_stash_pop oracle s9).2 else s9
        (Except.ok true, s11)

/-- The body of the `try` block of `create_branch_and_commit`: snapshot
stash (tracking whether the command succeeded), resolve the feature
branch, then the rest of the sequence. -/
def cbac_main (oracle : Nat → Bool) (branch_name : String)
    (safe : List String) (message strategy base : String) (s : RepoState) :
    Except GitErr Bool × RepoState :=
  let r1 := git_stash_push oracle ("redgit-temp-" ++ branch_name) s
  let stash_created := match r1.1 with
    | Except.ok _ => true
    | Except.error _ => false
  match resolve_branch oracle branch_name base r1.2 with
  | (Except.error e, t) => (Except.error e, t)
  | (Except.ok actual, t) =>
    cbac_after_branch oracle actual stash_created branch_name safe
      message strategy base t

/-- The `except` block of `create_branch_and_commit`: best-effort recovery
that attempts to check out the base branch and then to pop any
outstanding stash, each attempt swallowing its own error. -/
def cbac_recover (oracle : Nat → Bool) (base : String) (s : RepoState) :
    RepoState :=
  (git_stash_pop oracle (git_checkout oracle base s).2).2

/-- `GitOps.create_branch_and_commit(branch_name, files, message,
strategy)` with `base` standing for `self.original_branch`: filter the
files, return `False` with no git operation when nothing safe remains,
otherwise run the main sequence; on an exception, run best-effort
recovery and re-raise the original error. -/
def create_branch_and_commit (excl : String → Bool) (oracle : Nat → Bool)
    (branch_name : String) (files : List String) (message strategy base : String)
    (s : RepoState) : Except GitErr Bool × RepoState :=
  let safe := safe_files excl s files
  if safe = [] then (Except.ok false, s)
  else
    match cbac_main oracle branch_name safe message strategy base s with
    | (Except.ok b, t) => (Except.ok b, t)
    | (Except.error e, t) => (Except.error e, cbac_recover oracle base t)

/-- The oracle that injects no failures: every git operation that is
naturally possible succeeds. -/
def allOk : Nat → Bool := fun _ => false

/-- Pure description of what the staging loop does to the index: each
file in turn, when present in the working tree, has its working-tree
content copied into the index; missing files are skipped. -/
def stageFold (idx wt : Tree) : List String → Tree
  | [] => idx
  | f :: rest =>
    match treeFind wt f with
    | none => stageFold idx wt rest
    | some c => stageFold (treeSet idx f c) wt rest

/-- Every operation in `t`'s trace was already in `s`'s trace or satisfies
`P`: the run from `s` to `t` attempted only operations allowed by `P`. -/
def OpsBound (P : GitOp → Prop) (s t : RepoState) : Prop :=
  ∀ op, op ∈ t.trace → op ∈ s.trace ∨ P op

/-- Whether an `Except` result is a success (how the engine's
`try/except` flags like `stash_created` read a result). -/
def exceptOk : Except GitErr Unit → Bool
  | Except.ok _ => true
  | Except.error _ => false

/-- The operations `merge_and_delete` may attempt: the two merges of the
actual branch and its deletion. -/
def mergeOpsOf (actual : String) (op : GitOp) : Prop :=
  op = GitOp.mergeNoFF actual ("Merge " ++ actual) ∨
  op = GitOp.mergeFF actual ∨ op = GitOp.deleteBranch actual

/-- The operations steps 3-11 may attempt, for a given actual branch
name; merge and delete operations happen only under the local-merge
strategy. -/
def afterOpsOf (actual branch_name : String) (safe : List String)
    (message strategy base : String) (op : GitOp) : Prop :=
  op = GitOp.stashPop ∨ op = GitOp.resetHead ∨
  (∃ f ∈ safe, op = GitOp.stageFile f) ∨ op = GitOp.commitOp message ∨
  op = GitOp.stashPush ("redgit-remaining-" ++ branch_name) ∨
  op = GitOp.checkout base ∨
  (strategy = "local-merge" ∧ mergeOpsOf actual op)

/-- The operations step 2 (branch resolution) may attempt. -/
def resolveOpsOf (branch_name base : String) (op : GitOp) : Prop :=
  op = GitOp.checkoutNew branch_name base ∨ op = GitOp.checkout branch_name ∨
  op = GitOp.checkoutNew (branch_name ++ "-v2") base

/-- The operations the whole `try` body may attempt. -/
def mainOpsOf (branch_name : String) (safe : List String)
    (message strategy base : String) (op : GitOp) : Prop :=
  op = GitOp.stashPush ("redgit-temp-" ++ branch_name) ∨
  resolveOpsOf branch_name base op ∨
  afterOpsOf branch_name branch_name safe message strategy base op ∨
  afterOpsOf (branch_name ++ "-v2") branch_name safe message strategy base op

/-- The operations the `except` recovery block attempts. -/
def recoverOpsOf (base : String) (op : GitOp) : Prop :=
  op = GitOp.checkout base ∨ op = GitOp.stashPop

/-- The operations a whole `create_branch_and_commit` call may attempt. -/
def createOpsOf (branch_name : String) (safe : List String)
    (message strategy base : String) (op : GitOp) : Prop :=
  mainOpsOf branch_name safe message strategy base op ∨ recoverOpsOf base op

/-- A small repository fixture for concrete runs: one branch "main" with
a committed a.py, a modified a.py and an untracked b.py on disk. -/
def dirtyRepo : RepoState :=
  { branches := [("main", [("a.py", "old")])], current := "main",
    workTree := [("a.py", "new"), ("b.py", "bb")],
    index := [("a.py", "old")], stash := [], commits := [],
    trace := [], opCount := 0 }

/-- A small repository fixture for concrete runs: the requested branch
name "feat" already exists, so branch creation collides. -/
def collisionRepo : RepoState :=
  { branches := [("feat", [("a.py", "old")]), ("main", [("a.py", "old")])],
    current := "main", workTree := [("a.py", "old")],
    index := [("a.py", "old")], stash := [], commits := [],
    trace := [], opCount := 0 }

/-- One entry of `get_changes`: `{"file": path, "status": "U"|"M"|"A"|"D"}`. -/
structure Change where
  file : String
  status : String
  deriving DecidableEq, Repr

/-- Modelled from the spec: `repo.untracked_files` — working-tree paths
that are not in the index, in working-tree order. -/
def untracked_files (s : RepoState) : List String :=
  (s.workTree.map Prod.fst).filter (fun f => (treeFind s.index f).isNone)

/-- Modelled from the spec: `repo.index.diff(None)` — index entries whose
working-tree content differs, tagged with the status the code derives
from `item.deleted_file` ("D" when gone from disk, else "M"). -/
def diff_index_work : Tree → Tree → List (String × String)
  | [], _ => []
  | (p, c) :: rest, wt =>
    match treeFind wt p with
    | none => (p, "D") :: diff_index_work rest wt
    | some d =>
      if d = c then diff_index_work rest wt
      else (p, "M") :: diff_index_work rest wt

/-- Index entries that are new or modified relative to HEAD, tagged with
the status the code derives from the diff flags ("A" for a new file,
"M" otherwise). -/
def diff_head_add_mod : Tree → Tree → List (String × String)
  | [], _ => []
  | (p, c) :: rest, head =>
    match treeFind head p with
    | none => (p, "A") :: diff_head_add_mod rest head
    | some d =>
      if d = c then diff_head_add_mod rest head
      else (p, "M") :: diff_head_add_mod rest head

/-- HEAD entries missing from the index: staged deletions, status "D". -/
def diff_head_deleted : Tree → Tree → List (String × String)
  | _, [] => []
  | idx, (p, _) :: rest =>
    if (treeFind idx p).isNone then (p, "D") :: diff_head_deleted idx rest
    else diff_head_deleted idx rest

/-- Modelled from the spec: `repo.index.diff("HEAD")` with the new/deleted
flags already turned into the statuses the code assigns. -/
def diff_index_head (idx head : Tree) : List (String × String) :=
  diff_head_add_mod idx head ++ diff_head_deleted idx head

/-- The de-duplicating accumulation loop of `get_changes`: each path is
first checked against `seen` (and recorded there whether or not it is
excluded), then appended when `include_excluded` holds or the exclusion
predicate rejects it. -/
def add_changes (excl : String → Bool) (inc : Bool) :
    List (String × String) → List String → List Change →
    List String × List Change
  | [], seen, acc => (seen, acc)
  | (f, st) :: rest, seen, acc =>
    if f ∈ seen then add_changes excl inc rest seen acc
    else if inc || !(excl f) then
      add_changes excl inc rest (f :: seen) (acc ++ [{ file := f, status := st }])
    else add_changes excl inc rest (f :: seen) acc

/-- `GitOps.get_changes(include_excluded)`: merge untracked files, then
unstaged modifications, then (only when HEAD is valid) staged
modifications, first-seen-wins by path, applying the exclusion filter. -/
def get_changes (excl : String → Bool) (inc : Bool) (s : RepoState) :
    List Change :=
  let untracked := (untracked_files s).map (fun f => (f, "U"))
  let unstaged := diff_index_work s.index s.workTree
  let staged :=
    if s.headValid then diff_index_head s.index s.headTree else []
  let r1 := add_changes excl inc untracked [] []
  let r2 := add_changes excl inc unstaged r1.1 r1.2
  let r3 := add_changes excl inc staged r2.1 r2.2
  r3.2

/-- First-seen-wins de-duplication by path, written the way the spec
phrases it (independent of the exclusion filter). -/
def dedup_first : List (String × String) → List String → List (String × String)
  | [], _ => []
  | (p, st) :: rest, seen =>
    if p ∈ seen then dedup_first rest seen
    else (p, st) :: dedup_first rest (p :: seen)

/-- The seen-set accumulated by a pass over a source list: each new path
is recorded whether or not the exclusion filter keeps it. -/
def seenAfter : List (String × String) → List String → List String
  | [], seen => seen
  | (p, _) :: rest, seen =>
    if p ∈ seen then seenAfter rest seen else seenAfter rest (p :: seen)

/-- The spec's description of `GetChanges`: concatenate the three sources
in discovery order, de-duplicate first-seen-wins by path, then drop the
excluded paths (unless `includeExcluded`). Stated from the spec's words,
to be compared with `get_changes`. -/
def get_changes_spec (excl : String → Bool) (inc : Bool) (s : RepoState) :
    List Change :=
  let sources :=
    (untracked_files s).map (fun f => (f, "U")) ++
    diff_index_work s.index s.workTree ++
    (if s.headValid then diff_index_head s.index s.headTree else [])
  ((dedup_first sources []).filter (fun pc => inc || !(excl pc.1))).map
    (fun pc => { file := pc.1, status := pc.2 })

/-- An opened repository handle, as far as `GitOps.__init__` consults it:
whether HEAD is valid (the repository has a commit), the active branch
name, and the configured remotes. -/
structure RepoHandle where
  headValid : Bool
  activeBranch : String
  remotes : List (String × String)
  deriving DecidableEq, Repr

/-- `init_git_repo(remote_url)`: initialize a fresh repository in the
current directory (no commits, so HEAD is invalid) and add `remote_url`
as the remote `origin` when given. -/
def init_git_repo (remote_url : Option String) : RepoHandle :=
  { headValid := false, activeBranch := "master",
    remotes := match remote_url with
      | some url => [("origin", url)]
      | none => [] }

/-- Raised when the current directory is not a git repository. -/
inductive NotAGitRepoError where
  | notAGitRepo
  deriving DecidableEq, Repr

/-- The state `GitOps.__init__` leaves behind: the opened (or freshly
initialized) repository and the recorded `original_branch`. -/
structure GitOpsHandle where
  repo : RepoHandle
  original_branch : String
  deriving DecidableEq, Repr

/-- `GitOps.__init__(auto_init, remote_url)`: `existing` is the repository
found at the current directory (`none` when `git.Repo` raises
`InvalidGitRepositoryError`). Without a repository, auto-initialize when
`auto_init` holds, otherwise raise `NotAGitRepoError`; finally record
`original_branch` as the active branch when HEAD is valid, else the
literal "main". -/
def gitops_init (existing : Option RepoHandle) (auto_init : Bool)
    (remote_url : Option String) : Except NotAGitRepoError GitOpsHandle :=
  match existing with
  | some repo =>
    Except.ok
      { repo := repo
        original_branch := if repo.headValid then repo.activeBranch else "main" }
  | none =>
    if auto_init then
      let repo := init_git_repo remote_url
      Except.ok
        { repo := repo
          original_branch := if repo.headValid then repo.activeBranch else "main" }
    else Except.error NotAGitRepoError.notAGitRepo

/-! Basic lemmas about trees and the staging fold. -/

theorem treeFind_treeSet_ne (t : Tree) (q p : String) (c : String) (h : q ≠ p) :
    treeFind (treeSet t q c) p = treeFind t p := by
  induction t with
  | nil => simp [treeSet, treeFind, h]
  | cons hd tl ih =>
    obtain ⟨a, b⟩ := hd
    by_cases ha : a = q
    · subst ha
      simp [treeSet, treeFind, h]
    · simp only [treeSet, treeFind, if_neg ha]
      by_cases hap : a = p
      · simp [treeFind, hap]
      · simp [treeFind, hap, ih]

theorem stageFold_not_mem (idx wt : Tree) (fs : List String) (p : String)
    (h : p ∉ fs) : treeFind (stageFold idx wt fs) p = treeFind idx p := by
  induction fs generalizing idx with
  | nil => rfl
  | cons f rest ih =>
    have hfp : f ≠ p := fun hc => h (hc ▸ List.mem_cons_self f rest)
    have hrest : p ∉ rest := fun hc => h (List.mem_cons_of_mem f hc)
    cases hwf : treeFind wt f with
    | none => simpa [stageFold, hwf] using ih idx hrest
    | some c =>
      simp only [stageFold, hwf]
      rw [ih (treeSet idx f c) hrest, treeFind_treeSet_ne idx f p c hfp]

/-! Trace lemmas: every git primitive records exactly its own operation,
whether it succeeds or fails. -/

theorem trace_stash_push (oracle : Nat → Bool) (label : String) (s : RepoState) :
    (git_stash_push oracle label s).2.trace = s.trace ++ [GitOp.stashPush label] := by
  unfold git_stash_push
  split
  · rfl
  · split <;> rfl

theorem trace_stash_pop (oracle : Nat → Bool) (s : RepoState) :
    (git_stash_pop oracle s).2.trace = s.trace ++ [GitOp.stashPop] := by
  unfold git_stash_pop
  split
  · rfl
  · split <;> rfl

theorem trace_checkout_new (oracle : Nat → Bool) (name base : String) (s : RepoState) :
    (git_checkout_new oracle name base s).2.trace =
      s.trace ++ [GitOp.checkoutNew name base] := by
  unfold git_checkout_new
  split
  · rfl
  · split
    · rfl
    · split <;> rfl

theorem trace_checkout (oracle : Nat → Bool) (name : String) (s : RepoState) :
    (git_checkout oracle name s).2.trace = s.trace ++ [GitOp.checkout name] := by
  unfold git_checkout
  split
  · rfl
  · split
    · rfl
    · split
      · rfl
      · split <;> rfl

theorem trace_reset_head (oracle : Nat → Bool) (s : RepoState) :
    (git_reset_head oracle s).2.trace = s.trace ++ [GitOp.resetHead] := by
  unfold git_reset_head
  split <;> rfl

theorem trace_stage_file (oracle : Nat → Bool) (f : String) (s : RepoState) :
    (git_stage_file oracle f s).2.trace = s.trace ++ [GitOp.stageFile f] := by
  unfold git_stage_file
  split
  · rfl
  · split <;> rfl

theorem trace_commit (oracle : Nat → Bool) (msg : String) (s : RepoState) :
    (git_commit oracle msg s).2.trace = s.trace ++ [GitOp.commitOp msg] := by
  unfold git_commit
  split <;> rfl

theorem trace_merge_noff (oracle : Nat → Bool) (b msg : String) (s : RepoState) :
    (git_merge_noff oracle b msg s).2.trace = s.trace ++ [GitOp.mergeNoFF b msg] := by
  unfold git_merge_noff
  split
  · rfl
  · split
    · rfl
    · split <;> rfl

theorem trace_merge_ff (oracle : Nat → Bool) (b : String) (s : RepoState) :
    (git_merge_ff oracle b s).2.trace = s.trace ++ [GitOp.mergeFF b] := by
  unfold git_merge_ff
  split
  · rfl
  · split
    · rfl
    · split <;> rfl

theorem trace_delete_branch (oracle : Nat → Bool) (n : String) (s : RepoState) :
    (git_delete_branch oracle n s).2.trace = s.trace ++ [GitOp.deleteBranch n] := by
  unfold git_delete_branch
  split
  · rfl
  · split
    · rfl
    · split <;> rfl

/-! The `OpsBound` machinery: runs attempt only operations allowed by a
predicate, composably. -/

theorem opsBound_refl (P : GitOp → Prop) (s : RepoState) : OpsBound P s s :=
  fun _ h => Or.inl h

theorem opsBound_trans {P : GitOp → Prop} {s t u : RepoState}
    (h1 : OpsBound P s t) (h2 : OpsBound P t u) : OpsBound P s u := by
  intro op hop
  rcases h2 op hop with h | h
  · exact h1 op h
  · exact Or.inr h

theorem opsBound_mono {P Q : GitOp → Prop} {s t : RepoState}
    (hPQ : ∀ op, P op → Q op) (h : OpsBound P s t) : OpsBound Q s t := by
  intro op hop
  rcases h op hop with h | h
  · exact Or.inl h
  · exact Or.inr (hPQ op h)

theorem opsBound_of_trace {P : GitOp → Prop} {s t : RepoState} {op : GitOp}
    (h : t.trace = s.trace ++ [op]) (hP : P op) : OpsBound P s t := by
  intro o ho
  rw [h] at ho
  rcases List.mem_append.mp ho with h1 | h1
  · exact Or.inl h1
  · exact Or.inr (List.mem_singleton.mp h1 ▸ hP)

theorem opsBound_stage_loop (oracle : Nat → Bool) (fs : List String)
    (s : RepoState) :
    OpsBound (fun op => ∃ f ∈ fs, op = GitOp.stageFile f) s
      (stage_loop oracle fs s) := by
  induction fs generalizing s with
  | nil => exact opsBound_refl _ s
  | cons f rest ih =>
    have h1 : OpsBound (fun op => ∃ g ∈ f :: rest, op = GitOp.stageFile g) s
        (git_stage_file oracle f s).2 := by
      apply opsBound_of_trace (trace_stage_file oracle f s)
      exact ⟨f, List.mem_cons_self f rest, rfl⟩
    have h2 : OpsBound (fun op => ∃ g ∈ f :: rest, op = GitOp.stageFile g)
        (git_stage_file oracle f s).2
        (stage_loop oracle rest (git_stage_file oracle f s).2) := by
      apply opsBound_mono _ (ih ((git_stage_file oracle f s).2))
      intro op hop
      obtain ⟨g, hg, hop⟩ := hop
      exact ⟨g, List.mem_cons_of_mem f hg, hop⟩
    exact opsBound_trans h1 h2

theorem opsBound_merge_and_delete (oracle : Nat → Bool) (actual : String)
    (s : RepoState) :
    OpsBound (mergeOpsOf actual) s (merge_and_delete oracle actual s).2 := by
  rcases h1 : git_merge_noff oracle actual ("Merge " ++ actual) s with ⟨r1, t1⟩
  have b1 : OpsBound (mergeOpsOf actual) s t1 := by
    have ht := trace_merge_noff oracle actual ("Merge " ++ actual) s
    rw [h1] at ht
    exact opsBound_of_trace ht (Or.inl rfl)
  cases r1 with
  | ok u =>
    simp only [merge_and_delete, h1]
    have ht := trace_delete_branch oracle actual t1
    exact opsBound_trans b1 (opsBound_of_trace ht (Or.inr (Or.inr rfl)))
  | error e1 =>
    rcases h2 : git_merge_ff oracle actual t1 with ⟨r2, t2⟩
    have b2 : OpsBound (mergeOpsOf actual) s t2 := by
      have ht := trace_merge_ff oracle actual t1
      rw [h2] at ht
      exact opsBound_trans b1 (opsBound_of_trace ht (Or.inr (Or.inl rfl)))
    cases r2 with
    | ok u =>
      simp only [merge_and_delete, h1, h2]
      have ht := trace_delete_branch oracle actual t2
      exact opsBound_trans b2 (opsBound_of_trace ht (Or.inr (Or.inr rfl)))
    | error e2 =>
      simp only [merge_and_delete, h1, h2]
      exact b2

theorem opsBound_resolve_branch (oracle : Nat → Bool) (bn base : String)
    (s : RepoState) :
    OpsBound (resolveOpsOf bn base) s (resolve_branch oracle bn base s).2 := by
  rcases h1 : git_checkout_new oracle bn base s with ⟨r1, t1⟩
  have b1 : OpsBound (resolveOpsOf bn base) s t1 := by
    have ht := trace_checkout_new oracle bn base s
    rw [h1] at ht
    exact opsBound_of_trace ht (Or.inl rfl)
  cases r1 with
  | ok u => simpa only [resolve_branch, h1] using b1
  | error e1 =>
    rcases h2 : git_checkout oracle bn t1 with ⟨r2, t2⟩
    have b2 : OpsBound (resolveOpsOf bn base) s t2 := by
      have ht := trace_checkout oracle bn t1
      rw [h2] at ht
      exact opsBound_trans b1 (opsBound_of_trace ht (Or.inr (Or.inl rfl)))
    cases r2 with
    | ok u => simpa only [resolve_branch, h1, h2] using b2
    | error e2 =>
      rcases h3 : git_checkout_new oracle (bn ++ "-v2") base t2 with ⟨r3, t3⟩
      have b3 : OpsBound (resolveOpsOf bn base) s t3 := by
        have ht := trace_checkout_new oracle (bn ++ "-v2") base t2
        rw [h3] at ht
        exact opsBound_trans b2 (opsBound_of_trace ht (Or.inr (Or.inr rfl)))
      cases r3 with
      | ok u => simpa only [resolve_branch, h1, h2, h3] using b3
      | error e3 => simpa only [resolve_branch, h1, h2, h3] using b3

theorem resolve_branch_name (oracle : Nat → Bool) (bn base : String)
    (s : RepoState) (a : String) (t : RepoState)
    (h : resolve_branch oracle bn base s = (Except.ok a, t)) :
    a = bn ∨ a = bn ++ "-v2" := by
  unfold resolve_branch at h
  split at h
  · simp only [Prod.mk.injEq] at h
    exact Or.inl (Except.ok.inj h.1).symm
  · split at h
    · simp only [Prod.mk.injEq] at h
      exact Or.inl (Except.ok.inj h.1).symm
    · split at h
      · simp only [Prod.mk.injEq] at h
        exact Or.inr (Except.ok.inj h.1).symm
      · simp only [Prod.mk.injEq] at h
        exact Except.noConfusion h.1

theorem opsBound_cbac_after_branch (oracle : Nat → Bool) (actual : String)
    (created : Bool) (bn : String) (safe : List String)
    (msg strat base : String) (s : RepoState) :
    OpsBound (afterOpsOf actual bn safe msg strat base) s
      (cbac_after_branch oracle actual created bn safe msg strat base s).2 := by
  have b3 : OpsBound (afterOpsOf actual bn safe msg strat base) s
      (if created = true then (git_stash_pop oracle s).2 else s) := by
    cases created with
    | false => simpa using opsBound_refl _ s
    | true =>
      simpa using opsBound_of_trace (trace_stash_pop oracle s) (Or.inl rfl)
  have b4 : OpsBound (afterOpsOf actual bn safe msg strat base) s
      (git_reset_head oracle
        (if created = true then (git_stash_pop oracle s).2 else s)).2 :=
    opsBound_trans b3 (opsBound_of_trace (trace_reset_head oracle _)
      (Or.inr (Or.inl rfl)))
  have b5 : OpsBound (afterOpsOf actual bn safe msg strat base) s
      (stage_loop oracle safe (git_reset_head oracle
        (if created = true then (git_stash_pop oracle s).2 else s)).2) := by
    refine opsBound_trans b4 (opsBound_mono ?_ (opsBound_stage_loop oracle safe _))
    intro op hop
    exact Or.inr (Or.inr (Or.inl hop))
  simp only [cbac_after_branch]
  rcases hc : git_commit oracle msg (stage_loop oracle safe (git_reset_head oracle
      (if created = true then (git_stash_pop oracle s).2 else s)).2) with ⟨rc, s6⟩
  have b6 : OpsBound (afterOpsOf actual bn safe msg strat base) s s6 := by
    have ht := trace_commit oracle msg (stage_loop oracle safe (git_reset_head oracle
      (if created = true then (git_stash_pop oracle s).2 else s)).2)
    rw [hc] at ht
    exact opsBound_trans b5 (opsBound_of_trace ht
      (Or.inr (Or.inr (Or.inr (Or.inl rfl)))))
  cases rc with
  | error e => simpa only [hc] using b6
  | ok u =>
    simp only [hc]
    rcases hp : git_stash_push oracle ("redgit-remaining-" ++ bn) s6 with ⟨rp, s7⟩
    have b7 : OpsBound (afterOpsOf actual bn safe msg strat base) s s7 := by
      have ht := trace_stash_push oracle ("redgit-remaining-" ++ bn) s6
      rw [hp] at ht
      exact opsBound_trans b6 (opsBound_of_trace ht
        (Or.inr (Or.inr (Or.inr (Or.inr (Or.inl rfl))))))
    simp only [hp]
    rcases hco : git_checkout oracle base s7 with ⟨rco, s8⟩
    have b8 : OpsBound (afterOpsOf actual bn safe msg strat base) s s8 := by
      have ht := trace_checkout oracle base s7
      rw [hco] at ht
      exact opsBound_trans b7 (opsBound_of_trace ht
        (Or.inr (Or.inr (Or.inr (Or.inr (Or.inr (Or.inl rfl)))))))
    cases rco with
    | error e => simpa only [hco] using b8
    | ok u2 =>
      simp only [hco]
      by_cases hs : strat = "local-merge"
      · simp only [if_pos hs]
        rcases hmd : merge_and_delete oracle actual s8 with ⟨rmd, s9⟩
        have b9 : OpsBound (afterOpsOf actual bn safe msg strat base) s s9 := by
          have hb := opsBound_merge_and_delete oracle actual s8
          rw [hmd] at hb
          refine opsBound_trans b8 (opsBound_mono ?_ hb)
          intro op hop
          exact Or.inr (Or.inr (Or.inr (Or.inr (Or.inr (Or.inr ⟨hs, hop⟩)))))
        cases rmd with
        | error e => simpa only [hmd] using b9
        | ok u3 =>
          simp only [hmd]
          cases rp with
          | ok u4 =>
            simp only [exceptOk]
            exact opsBound_trans b9 (opsBound_of_trace (trace_stash_pop oracle s9)
              (Or.inl rfl))
          | error e4 => simpa using b9
      · simp only [if_neg hs]
        cases rp with
        | ok u4 =>
          simp only
          exact opsBound_trans b8 (opsBound_of_trace (trace_stash_pop oracle s8)
            (Or.inl rfl))
        | error e4 => simpa using b8

theorem opsBound_cbac_main (oracle : Nat → Bool) (bn : String)
    (safe : List String) (msg strat base : String) (s : RepoState) :
    OpsBound (mainOpsOf bn safe msg strat base) s
      (cbac_main oracle bn safe msg strat base s).2 := by
  rcases h0 : git_stash_push oracle ("redgit-temp-" ++ bn) s with ⟨r0, t0⟩
  have b0 : OpsBound (mainOpsOf bn safe msg strat base) s t0 := by
    have ht := trace_stash_push oracle ("redgit-temp-" ++ bn) s
    rw [h0] at ht
    exact opsBound_of_trace ht (Or.inl rfl)
  simp only [cbac_main, h0]
  rcases hres : resolve_branch oracle bn base t0 with ⟨rr, t⟩
  have bres : OpsBound (mainOpsOf bn safe msg strat base) s t := by
    have hb := opsBound_resolve_branch oracle bn base t0
    rw [hres] at hb
    exact opsBound_trans b0 (opsBound_mono
      (fun op hop => Or.inr (Or.inl hop)) hb)
  cases rr with
  | error e => simpa only [hres] using bres
  | ok a =>
    simp only [hres]
    rcases resolve_branch_name oracle bn base t0 a t hres with ha | ha
    · subst ha
      exact opsBound_trans bres (opsBound_mono
        (fun op hop => Or.inr (Or.inr (Or.inl hop)))
        (opsBound_cbac_after_branch oracle a _ a safe msg strat base t))
    · subst ha
      exact opsBound_trans bres (opsBound_mono
        (fun op hop => Or.inr (Or.inr (Or.inr hop)))
        (opsBound_cbac_after_branch oracle (bn ++ "-v2") _ bn safe msg strat
          base t))

theorem opsBound_cbac_recover (oracle : Nat → Bool) (base : String)
    (s : RepoState) :
    OpsBound (recoverOpsOf base) s (cbac_recover oracle base s) := by
  unfold cbac_recover
  have b1 : OpsBound (recoverOpsOf base) s (git_checkout oracle base s).2 :=
    opsBound_of_trace (trace_checkout oracle base s) (Or.inl rfl)
  exact opsBound_trans b1 (opsBound_of_trace (trace_stash_pop oracle _)
    (Or.inr rfl))

theorem trace_cbac_recover (oracle : Nat → Bool) (base : String)
    (s : RepoState) :
    (cbac_recover oracle base s).trace =
      s.trace ++ [GitOp.checkout base, GitOp.stashPop] := by
  unfold cbac_recover
  rw [trace_stash_pop, trace_checkout, List.append_assoc]
  rfl

theorem opsBound_create (excl : String → Bool) (oracle : Nat → Bool)
    (bn : String) (files : List String) (msg strat base : String)
    (s : RepoState) :
    OpsBound (createOpsOf bn (safe_files excl s files) msg strat base) s
      (create_branch_and_commit excl oracle bn files msg strat base s).2 := by
  simp only [create_branch_and_commit]
  by_cases he : safe_files excl s files = []
  · simp only [if_pos he]
    exact opsBound_refl _ s
  · simp only [if_neg he]
    rcases hm : cbac_main oracle bn (safe_files excl s files) msg strat base s
      with ⟨rm, t⟩
    have bm : OpsBound (createOpsOf bn (safe_files excl s files) msg strat base)
        s t := by
      have hb := opsBound_cbac_main oracle bn (safe_files excl s files)
        msg strat base s
      rw [hm] at hb
      exact opsBound_mono (fun op hop => Or.inl hop) hb
    cases rm with
    | ok b => simpa only [hm] using bm
    | error e =>
      simp only [hm]
      have hb := opsBound_cbac_recover oracle base t
      exact opsBound_trans bm (opsBound_mono (fun op hop => Or.inr hop) hb)

/-! Success-case equations for the primitives, used to compute runs in
which the relevant operations succeed. -/

theorem stash_push_dirty (oracle : Nat → Bool) (label : String) (s : RepoState)
    (ho : oracle s.opCount = false) (h : ¬ s.cleanTree) :
    git_stash_push oracle label s = (Except.ok (),
      { bump (GitOp.stashPush label) s with
        stash := (s.workTree, s.index) :: s.stash,
        workTree := s.headTree, index := s.headTree }) := by
  unfold git_stash_push
  rw [if_neg (by simp [ho]), if_neg h]

theorem stash_push_clean (oracle : Nat → Bool) (label : String) (s : RepoState)
    (ho : oracle s.opCount = false) (h : s.cleanTree) :
    git_stash_push oracle label s = (Except.ok (), bump (GitOp.stashPush label) s) := by
  unfold git_stash_push
  rw [if_neg (by simp [ho]), if_pos h]

theorem stash_pop_cons (oracle : Nat → Bool) (s : RepoState) (w i : Tree)
    (rest : List (Tree × Tree)) (ho : oracle s.opCount = false)
    (h : s.stash = (w, i) :: rest) :
    git_stash_pop oracle s = (Except.ok (),
      { bump GitOp.stashPop s with workTree := w, index := i, stash := rest }) := by
  unfold git_stash_pop
  rw [if_neg (by simp [ho]), h]

theorem stash_pop_nil (oracle : Nat → Bool) (s : RepoState)
    (ho : oracle s.opCount = false) (h : s.stash = []) :
    git_stash_pop oracle s =
      (Except.error { op := GitOp.stashPop, idx := s.opCount },
        bump GitOp.stashPop s) := by
  unfold git_stash_pop
  rw [if_neg (by simp [ho]), h]
  rfl

theorem checkout_new_ok (oracle : Nat → Bool) (name base : String)
    (s : RepoState) (ho : oracle s.opCount = false)
    (hb : lookupBranch s.branches base = some s.headTree)
    (hn : lookupBranch s.branches name = none) :
    git_checkout_new oracle name base s = (Except.ok (),
      { bump (GitOp.checkoutNew name base) s with
        branches := (name, s.headTree) :: s.branches, current := name }) := by
  unfold git_checkout_new
  rw [if_neg (by simp [ho]), hb]
  simp [hn]

theorem checkout_self (oracle : Nat → Bool) (name : String) (s : RepoState)
    (ho : oracle s.opCount = false) (h : name = s.current) :
    git_checkout oracle name s = (Except.ok (), bump (GitOp.checkout name) s) := by
  unfold git_checkout
  rw [if_neg (by simp [ho]), if_pos h]

theorem checkout_ok (oracle : Nat → Bool) (name : String) (s : RepoState)
    (t : Tree) (ho : oracle s.opCount = false) (hne : ¬ name = s.current)
    (hb : lookupBranch s.branches name = some t) (hc : s.cleanTree) :
    git_checkout oracle name s = (Except.ok (),
      { bump (GitOp.checkout name) s with
        current := name, workTree := t, index := t }) := by
  unfold git_checkout
  rw [if_neg (by simp [ho]), if_neg hne, hb]
  simp only [if_pos hc]

theorem reset_head_ok (oracle : Nat → Bool) (s : RepoState)
    (ho : oracle s.opCount = false) :
    git_reset_head oracle s = (Except.ok (),
      { bump GitOp.resetHead s with index := s.headTree }) := by
  unfold git_reset_head
  rw [if_neg (by simp [ho])]

theorem commit_ok (oracle : Nat → Bool) (msg : String) (s : RepoState)
    (ho : oracle s.opCount = false) :
    git_commit oracle msg s = (Except.ok (),
      { bump (GitOp.commitOp msg) s with
        branches := setBranch s.branches s.current s.index,
        commits := s.commits ++ [(msg, s.index)] }) := by
  unfold git_commit
  rw [if_neg (by simp [ho])]

theorem merge_noff_ok (oracle : Nat → Bool) (b msg : String) (s : RepoState)
    (t : Tree) (ho : oracle s.opCount = false)
    (hb : lookupBranch s.branches b = some t) (hc : s.cleanTree) :
    git_merge_noff oracle b msg s = (Except.ok (),
      { bump (GitOp.mergeNoFF b msg) s with
        branches := setBranch s.branches s.current t,
        workTree := t, index := t,
        commits := s.commits ++ [(msg, t)] }) := by
  unfold git_merge_noff
  rw [if_neg (by simp [ho]), hb]
  simp only [if_pos hc]

theorem delete_branch_ok (oracle : Nat → Bool) (n : String) (s : RepoState)
    (t : Tree) (ho : oracle s.opCount = false) (hne : ¬ n = s.current)
    (hb : lookupBranch s.branches n = some t) :
    git_delete_branch oracle n s = (Except.ok (),
      { bump (GitOp.deleteBranch n) s with
        branches := removeBranch s.branches n }) := by
  unfold git_delete_branch
  rw [if_neg (by simp [ho]), if_neg hne, hb]

theorem stage_loop_allOk (fs : List String) (s : RepoState) :
    stage_loop allOk fs s = { s with
      index := stageFold s.index s.workTree fs,
      trace := s.trace ++ fs.map GitOp.stageFile,
      opCount := s.opCount + fs.length } := by
  induction fs generalizing s with
  | nil => simp [stage_loop, stageFold]
  | cons f rest ih =>
    cases hwf : treeFind s.workTree f with
    | none =>
      have hstep : (git_stage_file allOk f s).2 = bump (GitOp.stageFile f) s := by
        simp [git_stage_file, allOk, opFail, hwf]
      rw [stage_loop, hstep, ih]
      (ext1 <;> simp [bump, stageFold, hwf]); omega
    | some c =>
      have hstep : (git_stage_file allOk f s).2 =
          { bump (GitOp.stageFile f) s with index := treeSet s.index f c } := by
        simp [git_stage_file, allOk, hwf]
      rw [stage_loop, hstep, ih]
      (ext1 <;> simp [bump, stageFold, hwf]); omega

/-! Strategy is consulted only by the equality test against the literal
"local-merge" in step 9. -/

theorem cbac_after_branch_strat (oracle : Nat → Bool) (actual : String)
    (created : Bool) (bn : String) (safe : List String) (msg strat base : String)
    (s : RepoState) (h : strat ≠ "local-merge") :
    cbac_after_branch oracle actual created bn safe msg strat base s =
      cbac_after_branch oracle actual created bn safe msg "merge-request" base s := by
  simp only [cbac_after_branch]
  rcases hc : git_commit oracle msg (stage_loop oracle safe (git_reset_head oracle
      (if created = true then (git_stash_pop oracle s).2 else s)).2) with ⟨rc, s6⟩
  cases rc with
  | error e => rfl
  | ok u =>
    simp only
    rcases hco : git_checkout oracle base
        (git_stash_push oracle ("redgit-remaining-" ++ bn) s6).2 with ⟨rco, s8⟩
    cases rco with
    | error e => rfl
    | ok u2 =>
      simp only
      rw [if_neg h, if_neg (by decide)]

theorem cbac_main_strat (oracle : Nat → Bool) (bn : String) (safe : List String)
    (msg strat base : String) (s : RepoState) (h : strat ≠ "local-merge") :
    cbac_main oracle bn safe msg strat base s =
      cbac_main oracle bn safe msg "merge-request" base s := by
  simp only [cbac_main]
  rcases hres : resolve_branch oracle bn base
      (git_stash_push oracle ("redgit-temp-" ++ bn) s).2 with ⟨rr, t⟩
  cases rr with
  | error e => rfl
  | ok a =>
    simp only
    exact cbac_after_branch_strat oracle a _ bn safe msg strat base t h

theorem create_strat (excl : String → Bool) (oracle : Nat → Bool) (bn : String)
    (files : List String) (msg strat base : String) (s : RepoState)
    (h : strat ≠ "local-merge") :
    create_branch_and_commit excl oracle bn files msg strat base s =
      create_branch_and_commit excl oracle bn files msg "merge-request" base s := by
  simp only [create_branch_and_commit]
  rw [cbac_main_strat oracle bn (safe_files excl s files) msg strat base s h]

/-- Membership in the filtered safe file list. -/
theorem mem_safe_files (excl : String → Bool) (s : RepoState)
    (files : List String) (f : String) :
    f ∈ safe_files excl s files ↔
      f ∈ files ∧ excl f = false ∧ (treeFind s.workTree f).isSome := by
  simp [safe_files, List.mem_filter]

/-! Claim theorems. -/

/-- C10: constructing `GitOps` outside a git repository raises
`NotAGitRepoError` only when `auto_init` is false; with `auto_init` it
instead initializes a fresh repository (adding `remote_url` as the remote
`origin` when given) and does not raise; and when the repository HEAD is
invalid, `original_branch` falls back to the literal "main" rather than
the active branch name. -/
theorem c10_constructor (auto_init : Bool) (remote_url : Option String)
    (url : String) (repo : RepoHandle) :
    gitops_init none false remote_url =
      Except.error NotAGitRepoError.notAGitRepo ∧
    gitops_init none true remote_url =
      Except.ok { repo := init_git_repo remote_url, original_branch := "main" } ∧
    (init_git_repo (some url)).remotes = [("origin", url)] ∧
    (init_git_repo none).remotes = [] ∧
    (repo.headValid = false →
      gitops_init (some repo) auto_init remote_url =
        Except.ok { repo := repo, original_branch := "main" }) := by
  refine ⟨rfl, ?_, rfl, rfl, ?_⟩
  · simp [gitops_init, init_git_repo]
  · intro h
    simp [gitops_init, h]

/-- Witness for C10 at concrete inputs. -/
theorem c10_constructor_witness :
    gitops_init (some { headValid := false, activeBranch := "dev", remotes := [] })
      true none =
      Except.ok { repo := { headValid := false, activeBranch := "dev", remotes := [] }
                  original_branch := "main" } :=
  (c10_constructor true none ("u")
    { headValid := false, activeBranch := "dev", remotes := [] }).2.2.2.2 rfl

/-- C5: `create_branch_and_commit` computes the safe files as the input
files filtered by not-excluded and exists-on-disk (so a file missing from
disk is silently dropped rather than treated as an error), and whenever
that list is empty it returns false having performed zero git operations:
the repository state, including stash, branches and trace, is returned
unchanged. -/
theorem c5_empty_safe_files (excl : String → Bool) (oracle : Nat → Bool)
    (bn : String) (files : List String) (msg strat base : String)
    (s : RepoState) :
    (∀ f, f ∈ safe_files excl s files ↔
      f ∈ files ∧ excl f = false ∧ (treeFind s.workTree f).isSome) ∧
    (safe_files excl s files = [] →
      create_branch_and_commit excl oracle bn files msg strat base s =
        (Except.ok false, s)) := by
  refine ⟨fun f => mem_safe_files excl s files f, fun h => ?_⟩
  simp [create_branch_and_commit, h]

/-- Witness for C5: a single requested file that does not exist on disk
gives an empty safe list and an untouched repository. -/
theorem c5_empty_safe_files_witness :
    safe_files (fun _ => false)
      { branches := [("main", [("a.py", "old")])], current := "main",
        workTree := [("a.py", "new")], index := [("a.py", "old")],
        stash := [], commits := [], trace := [], opCount := 0 }
      ["missing.py"] = [] ∧
    create_branch_and_commit (fun _ => false) allOk ("feat") ["missing.py"]
      ("m") ("local-merge") ("main")
      { branches := [("main", [("a.py", "old")])], current := "main",
        workTree := [("a.py", "new")], index := [("a.py", "old")],
        stash := [], commits := [], trace := [], opCount := 0 } =
      (Except.ok false,
      { branches := [("main", [("a.py", "old")])], current := "main",
        workTree := [("a.py", "new")], index := [("a.py", "old")],
        stash := [], commits := [], trace := [], opCount := 0 }) :=
  ⟨by decide,
    (c5_empty_safe_files (fun _ => false) allOk ("feat") ["missing.py"] ("m")
      ("local-merge") ("main") _).2 (by decide)⟩

/-- C3: when the main sequence raises at any step from branch creation
onward, `create_branch_and_commit` runs the best-effort recovery — which
attempts, in order, a checkout of the original branch and then a stash
pop, each attempt swallowing its own error — and re-raises the original
exception to the caller rather than silently swallowing it. -/
theorem c3_recovery_and_reraise (excl : String → Bool) (oracle : Nat → Bool)
    (bn : String) (files : List String) (msg strat base : String)
    (s t : RepoState) (e : GitErr)
    (h1 : safe_files excl s files ≠ [])
    (h2 : cbac_main oracle bn (safe_files excl s files) msg strat base s =
      (Except.error e, t)) :
    create_branch_and_commit excl oracle bn files msg strat base s =
      (Except.error e, cbac_recover oracle base t) ∧
    (cbac_recover oracle base t).trace =
      t.trace ++ [GitOp.checkout base, GitOp.stashPop] := by
  constructor
  · simp [create_branch_and_commit, if_neg h1, h2]
  · exact trace_cbac_recover oracle base t

/-- Witness for C3: a run whose commit step raises; the call re-raises
that error after attempting checkout-then-pop recovery. -/
theorem c3_recovery_and_reraise_witness :
    create_branch_and_commit (fun _ => false) (fun n => n == 5) ("feat")
      ["a.py"] ("msg") ("local-merge") ("main")
      { branches := [("main", [("a.py", "old")])], current := "main",
        workTree := [("a.py", "new")], index := [("a.py", "old")],
        stash := [], commits := [], trace := [], opCount := 0 } =
      (Except.error { op := GitOp.commitOp ("msg"), idx := 5 },
        cbac_recover (fun n => n == 5) ("main")
          (cbac_main (fun n => n == 5) ("feat") ["a.py"] ("msg") ("local-merge")
            ("main")
            { branches := [("main", [("a.py", "old")])], current := "main",
              workTree := [("a.py", "new")], index := [("a.py", "old")],
              stash := [], commits := [], trace := [], opCount := 0 }).2) :=
  (c3_recovery_and_reraise (fun _ => false) (fun n => n == 5) ("feat") ["a.py"]
    ("msg") ("local-merge") ("main") _ _
    { op := GitOp.commitOp ("msg"), idx := 5 }
    (by decide) (by decide)).1

/-- C9: any strategy string other than exactly "local-merge" behaves
identically to the merge-request strategy: the whole call is equal to the
same call with strategy "merge-request", and in particular no merge and
no branch deletion is ever attempted. -/
theorem c9_unknown_strategy (excl : String → Bool) (oracle : Nat → Bool)
    (bn : String) (files : List String) (msg strat base : String)
    (s : RepoState) (h : strat ≠ "local-merge") :
    create_branch_and_commit excl oracle bn files msg strat base s =
      create_branch_and_commit excl oracle bn files msg "merge-request" base s ∧
    OpsBound (fun op => (∀ b m, op ≠ GitOp.mergeNoFF b m) ∧
      (∀ b, op ≠ GitOp.mergeFF b) ∧ (∀ b, op ≠ GitOp.deleteBranch b)) s
      (create_branch_and_commit excl oracle bn files msg strat base s).2 := by
  refine ⟨create_strat excl oracle bn files msg strat base s h, ?_⟩
  refine opsBound_mono ?_ (opsBound_create excl oracle bn files msg strat base s)
  intro op hop
  rcases hop with hm | hr
  · rcases hm with h1 | h1 | h1 | h1
    · subst h1
      exact ⟨fun b m => by simp, fun b => by simp, fun b => by simp⟩
    · rcases h1 with h2 | h2 | h2 <;> subst h2 <;>
        exact ⟨fun b m => by simp, fun b => by simp, fun b => by simp⟩
    · rcases h1 with h2 | h2 | h2 | h2 | h2 | h2 | h2
      · subst h2; exact ⟨fun b m => by simp, fun b => by simp, fun b => by simp⟩
      · subst h2; exact ⟨fun b m => by simp, fun b => by simp, fun b => by simp⟩
      · obtain ⟨f, hf, h2⟩ := h2
        subst h2; exact ⟨fun b m => by simp, fun b => by simp, fun b => by simp⟩
      · subst h2; exact ⟨fun b m => by simp, fun b => by simp, fun b => by simp⟩
      · subst h2; exact ⟨fun b m => by simp, fun b => by simp, fun b => by simp⟩
      · subst h2; exact ⟨fun b m => by simp, fun b => by simp, fun b => by simp⟩
      · exact absurd h2.1 h
    · rcases h1 with h2 | h2 | h2 | h2 | h2 | h2 | h2
      · subst h2; exact ⟨fun b m => by simp, fun b => by simp, fun b => by simp⟩
      · subst h2; exact ⟨fun b m => by simp, fun b => by simp, fun b => by simp⟩
      · obtain ⟨f, hf, h2⟩ := h2
        subst h2; exact ⟨fun b m => by simp, fun b => by simp, fun b => by simp⟩
      · subst h2; exact ⟨fun b m => by simp, fun b => by simp, fun b => by simp⟩
      · subst h2; exact ⟨fun b m => by simp, fun b => by simp, fun b => by simp⟩
      · subst h2; exact ⟨fun b m => by simp, fun b => by simp, fun b => by simp⟩
      · exact absurd h2.1 h
  · rcases hr with h2 | h2 <;> subst h2 <;>
      exact ⟨fun b m => by simp, fun b => by simp, fun b => by simp⟩

/-- Witness for C9: the misspelled strategy "local_merge" takes the
merge-request path. -/
theorem c9_unknown_strategy_witness :
    ("local_merge" : String) ≠ "local-merge" ∧
    create_branch_and_commit (fun _ => false) allOk ("feat") ["a.py"] ("msg")
      ("local_merge") ("main")
      { branches := [("main", [("a.py", "old")])], current := "main",
        workTree := [("a.py", "new")], index := [("a.py", "old")],
        stash := [], commits := [], trace := [], opCount := 0 } =
    create_branch_and_commit (fun _ => false) allOk ("feat") ["a.py"] ("msg")
      ("merge-request") ("main")
      { branches := [("main", [("a.py", "old")])], current := "main",
        workTree := [("a.py", "new")], index := [("a.py", "old")],
        stash := [], commits := [], trace := [], opCount := 0 } :=
  ⟨by decide,
    (c9_unknown_strategy (fun _ => false) allOk ("feat") ["a.py"] ("msg")
      ("local_merge") ("main") _ (by decide)).1⟩

/-! Exclusion enforcement machinery for C4. -/

theorem add_changes_excl (excl : String → Bool) (items : List (String × String))
    (seen : List String) (acc : List Change)
    (hacc : ∀ c ∈ acc, excl c.file = false) :
    ∀ c ∈ (add_changes excl false items seen acc).2, excl c.file = false := by
  induction items generalizing seen acc with
  | nil => simpa [add_changes] using hacc
  | cons it rest ih =>
    obtain ⟨f, st⟩ := it
    simp only [add_changes]
    by_cases hf : f ∈ seen
    · simp only [if_pos hf]
      exact ih seen acc hacc
    · simp only [if_neg hf]
      cases hb : excl f with
      | true =>
        rw [if_neg (by decide)]
        exact ih (f :: seen) acc hacc
      | false =>
        rw [if_pos (by decide)]
        refine ih (f :: seen) (acc ++ [{ file := f, status := st }]) ?_
        intro c hc
        rcases List.mem_append.mp hc with h | h
        · exact hacc c h
        · rw [List.mem_singleton.mp h]
          exact hb

theorem get_changes_not_excluded (excl : String → Bool) (s : RepoState) :
    ∀ c ∈ get_changes excl false s, excl c.file = false := by
  intro c hc
  simp only [get_changes] at hc
  exact add_changes_excl excl _ _ _
    (add_changes_excl excl _ _ _
      (add_changes_excl excl _ _ _ (by simp))) c hc

theorem afterOps_stage (actual bn : String) (safe : List String)
    (msg strat base p : String)
    (h : afterOpsOf actual bn safe msg strat base (GitOp.stageFile p)) :
    p ∈ safe := by
  rcases h with h2 | h2 | h2 | h2 | h2 | h2 | h2
  · simp at h2
  · simp at h2
  · obtain ⟨f, hf, h2⟩ := h2
    simp only [GitOp.stageFile.injEq] at h2
    exact h2 ▸ hf
  · simp at h2
  · simp at h2
  · simp at h2
  · rcases h2.2 with h3 | h3 | h3 <;> simp at h3

theorem createOps_stage (bn : String) (safe : List String)
    (msg strat base p : String)
    (h : createOpsOf bn safe msg strat base (GitOp.stageFile p)) : p ∈ safe := by
  rcases h with hm | hr
  · rcases hm with h1 | h1 | h1 | h1
    · simp at h1
    · rcases h1 with h2 | h2 | h2 <;> simp at h2
    · exact afterOps_stage bn bn safe msg strat base p h1
    · exact afterOps_stage (bn ++ "-v2") bn safe msg strat base p h1
  · rcases hr with h2 | h2 <;> simp at h2

/-- C4: for every path p the exclusion predicate rejects, p never appears
in the result of `get_changes` with `include_excluded = false`, and p is
never staged by `create_branch_and_commit` — no staging operation for p is
ever attempted — even when p is explicitly listed in `files`. -/
theorem c4_exclusion_enforcement (excl : String → Bool) (oracle : Nat → Bool)
    (p bn : String) (files : List String) (msg strat base : String)
    (s : RepoState) (hp : excl p = true) :
    (∀ c ∈ get_changes excl false s, c.file ≠ p) ∧
    (GitOp.stageFile p ∉ s.trace →
      GitOp.stageFile p ∉
        (create_branch_and_commit excl oracle bn files msg strat base s).2.trace) := by
  constructor
  · intro c hc hfp
    have hx := get_changes_not_excluded excl s c hc
    rw [hfp, hp] at hx
    exact Bool.noConfusion hx
  · intro hnot hmem
    rcases opsBound_create excl oracle bn files msg strat base s _ hmem with h | h
    · exact hnot h
    · have hin := createOps_stage bn (safe_files excl s files) msg strat base p h
      have hx := ((mem_safe_files excl s files p).mp hin).2.1
      rw [hp] at hx
      exact Bool.noConfusion hx

/-- Witness for C4: an excluded path (excluded even when explicitly
requested) is reported by neither channel. -/
theorem c4_exclusion_enforcement_witness :
    ((fun f => f == ".env") (".env") = true) ∧
    (∀ c ∈ get_changes (fun f => f == ".env") false
      { branches := [("main", [("a.py", "old")])], current := "main",
        workTree := [("a.py", "new"), (".env", "secret")],
        index := [("a.py", "old")],
        stash := [], commits := [], trace := [], opCount := 0 },
      c.file ≠ ".env") ∧
    GitOp.stageFile (".env") ∉
      (create_branch_and_commit (fun f => f == ".env") allOk ("feat")
        [".env", "a.py"] ("msg") ("local-merge") ("main")
        { branches := [("main", [("a.py", "old")])], current := "main",
          workTree := [("a.py", "new"), (".env", "secret")],
          index := [("a.py", "old")],
          stash := [], commits := [], trace := [], opCount := 0 }).2.trace := by
  refine ⟨by decide, ?_, ?_⟩
  · exact (c4_exclusion_enforcement (fun f => f == ".env") allOk (".env") ("feat")
      [".env", "a.py"] ("msg") ("local-merge") ("main") _ (by decide)).1
  · exact (c4_exclusion_enforcement (fun f => f == ".env") allOk (".env") ("feat")
      [".env", "a.py"] ("msg") ("local-merge") ("main") _ (by decide)).2
      (by decide)

/-! Field-preservation lemmas: which primitives leave the current branch
and the branch map untouched, in every outcome. -/

theorem current_stash_push (oracle : Nat → Bool) (l : String) (s : RepoState) :
    (git_stash_push oracle l s).2.current = s.current := by
  unfold git_stash_push
  split
  · rfl
  · split <;> rfl

theorem current_stash_pop (oracle : Nat → Bool) (s : RepoState) :
    (git_stash_pop oracle s).2.current = s.current := by
  unfold git_stash_pop
  split
  · rfl
  · split <;> rfl

theorem current_reset_head (oracle : Nat → Bool) (s : RepoState) :
    (git_reset_head oracle s).2.current = s.current := by
  unfold git_reset_head
  split <;> rfl

theorem current_stage_file (oracle : Nat → Bool) (f : String) (s : RepoState) :
    (git_stage_file oracle f s).2.current = s.current := by
  unfold git_stage_file
  split
  · rfl
  · split <;> rfl

theorem current_stage_loop (oracle : Nat → Bool) (fs : List String)
    (s : RepoState) : (stage_loop oracle fs s).current = s.current := by
  induction fs generalizing s with
  | nil => rfl
  | cons f rest ih =>
    rw [stage_loop, ih, current_stage_file]

theorem current_commit (oracle : Nat → Bool) (msg : String) (s : RepoState) :
    (git_commit oracle msg s).2.current = s.current := by
  unfold git_commit
  split <;> rfl

theorem current_merge_noff (oracle : Nat → Bool) (b msg : String)
    (s : RepoState) : (git_merge_noff oracle b msg s).2.current = s.current := by
  unfold git_merge_noff
  split
  · rfl
  · split
    · rfl
    · split <;> rfl

theorem current_merge_ff (oracle : Nat → Bool) (b : String) (s : RepoState) :
    (git_merge_ff oracle b s).2.current = s.current := by
  unfold git_merge_ff
  split
  · rfl
  · split
    · rfl
    · split <;> rfl

theorem current_delete_branch (oracle : Nat → Bool) (n : String)
    (s : RepoState) : (git_delete_branch oracle n s).2.current = s.current := by
  unfold git_delete_branch
  split
  · rfl
  · split
    · rfl
    · split <;> rfl

theorem current_merge_and_delete (oracle : Nat → Bool) (a : String)
    (s : RepoState) : (merge_and_delete oracle a s).2.current = s.current := by
  unfold merge_and_delete
  rcases h1 : git_merge_noff oracle a ("Merge " ++ a) s with ⟨r1, t1⟩
  have e1 : t1.current = s.current := by
    have := current_merge_noff oracle a ("Merge " ++ a) s
    rw [h1] at this
    exact this
  cases r1 with
  | ok u =>
    simp only [h1]
    rw [current_delete_branch, e1]
  | error e =>
    simp only [h1]
    rcases h2 : git_merge_ff oracle a t1 with ⟨r2, t2⟩
    have e2 : t2.current = s.current := by
      have := current_merge_ff oracle a t1
      rw [h2] at this
      rw [this, e1]
    cases r2 with
    | ok u =>
      simp only [h2]
      rw [current_delete_branch, e2]
    | error e2x =>
      simp only [h2]
      exact e2

theorem checkout_result_current (oracle : Nat → Bool) (name : String)
    (s t : RepoState) (u : Unit)
    (h : git_checkout oracle name s = (Except.ok u, t)) : t.current = name := by
  unfold git_checkout at h
  split at h
  · simp [opFail] at h
  · split at h
    · next hcur =>
      obtain ⟨rfl⟩ : bump (GitOp.checkout name) s = t := by
        simpa using congrArg Prod.snd h
      simpa [bump] using hcur.symm
    · split at h
      · simp [opFail] at h
      · split at h
        · have := congrArg Prod.snd h
          simp only at this
          rw [← this]
        · simp [opFail] at h

theorem branches_stash_push (oracle : Nat → Bool) (l : String) (s : RepoState) :
    (git_stash_push oracle l s).2.branches = s.branches := by
  unfold git_stash_push
  split
  · rfl
  · split <;> rfl

theorem branches_stash_pop (oracle : Nat → Bool) (s : RepoState) :
    (git_stash_pop oracle s).2.branches = s.branches := by
  unfold git_stash_pop
  split
  · rfl
  · split <;> rfl

theorem branches_reset_head (oracle : Nat → Bool) (s : RepoState) :
    (git_reset_head oracle s).2.branches = s.branches := by
  unfold git_reset_head
  split <;> rfl

theorem branches_stage_file (oracle : Nat → Bool) (f : String) (s : RepoState) :
    (git_stage_file oracle f s).2.branches = s.branches := by
  unfold git_stage_file
  split
  · rfl
  · split <;> rfl

theorem branches_stage_loop (oracle : Nat → Bool) (fs : List String)
    (s : RepoState) : (stage_loop oracle fs s).branches = s.branches := by
  induction fs generalizing s with
  | nil => rfl
  | cons f rest ih =>
    rw [stage_loop, ih, branches_stage_file]

theorem branches_checkout (oracle : Nat → Bool) (name : String) (s : RepoState) :
    (git_checkout oracle name s).2.branches = s.branches := by
  unfold git_checkout
  split
  · rfl
  · split
    · rfl
    · split
      · rfl
      · split <;> rfl

theorem lookup_setBranch_isSome (bs : List (String × Tree)) (b : String)
    (t : Tree) (n : String) (h : (lookupBranch bs n).isSome) :
    (lookupBranch (setBranch bs b t) n).isSome := by
  induction bs with
  | nil => simp [lookupBranch] at h
  | cons hd tl ih =>
    obtain ⟨m, u⟩ := hd
    by_cases hm : m = b
    · subst hm
      simp only [setBranch, if_pos rfl]
      by_cases hn : m = n
      · simp [lookupBranch, hn]
      · simp only [lookupBranch, if_neg hn] at h
        simp [lookupBranch, if_neg hn, h]
    · simp only [setBranch, if_neg hm]
      by_cases hn : m = n
      · simp [lookupBranch, hn]
      · simp only [lookupBranch, if_neg hn] at h
        simp only [lookupBranch, if_neg hn]
        exact ih h

theorem commit_lookup_isSome (oracle : Nat → Bool) (msg : String)
    (s : RepoState) (n : String) (h : (lookupBranch s.branches n).isSome) :
    (lookupBranch (git_commit oracle msg s).2.branches n).isSome := by
  unfold git_commit
  split
  · exact h
  · exact lookup_setBranch_isSome s.branches s.current s.index n h

/-- A run of steps 3-11 that returns a success ends on the base branch;
and under any strategy other than local-merge, a branch present at entry
is still present at exit. -/
theorem after_ok_state (oracle : Nat → Bool) (actual : String) (created : Bool)
    (bn : String) (safe : List String) (msg strat base : String)
    (s : RepoState) (b : Bool) (t : RepoState)
    (h : cbac_after_branch oracle actual created bn safe msg strat base s =
      (Except.ok b, t)) :
    t.current = base ∧
    (strat ≠ "local-merge" → (lookupBranch s.branches actual).isSome →
      (lookupBranch t.branches actual).isSome) := by
  simp only [cbac_after_branch] at h
  rcases hc : git_commit oracle msg (stage_loop oracle safe (git_reset_head oracle
      (if created = true then (git_stash_pop oracle s).2 else s)).2) with ⟨rc, s6⟩
  rw [hc] at h
  cases rc with
  | error e => simp at h
  | ok u =>
    simp only at h
    rcases hp : git_stash_push oracle ("redgit-remaining-" ++ bn) s6 with ⟨rp, s7⟩
    rw [hp] at h
    simp only at h
    rcases hco : git_checkout oracle base s7 with ⟨rco, s8⟩
    rw [hco] at h
    cases rco with
    | error e => simp at h
    | ok u2 =>
      simp only at h
      have hcur8 : s8.current = base := checkout_result_current oracle base s7 s8 u2 hco
      by_cases hs : strat = "local-merge"
      · rw [if_pos hs] at h
        rcases hmd : merge_and_delete oracle actual s8 with ⟨rmd, s9⟩
        rw [hmd] at h
        cases rmd with
        | error e => simp at h
        | ok u3 =>
          simp only [Prod.mk.injEq] at h
          have hcur9 : s9.current = base := by
            have := current_merge_and_delete oracle actual s8
            rw [hmd] at this
            rw [this, hcur8]
          constructor
          · rw [← h.2]
            cases rp with
            | ok u4 => simp [current_stash_pop, hcur9]
            | error e4 => simpa using hcur9
          · intro hns
            exact absurd hs hns
      · rw [if_neg hs] at h
        simp only [Prod.mk.injEq] at h
        have hbr8 : s8.branches = s6.branches := by
          have h1 := branches_checkout oracle base s7
          rw [hco] at h1
          have h2 := branches_stash_push oracle ("redgit-remaining-" ++ bn) s6
          rw [hp] at h2
          rw [h1, h2]
        constructor
        · rw [← h.2]
          cases rp with
          | ok u4 => simp [current_stash_pop, hcur8]
          | error e4 => simpa using hcur8
        · intro _ hsome
          have hs6 : (lookupBranch s6.branches actual).isSome := by
            have hstep := commit_lookup_isSome oracle msg (stage_loop oracle safe
              (git_reset_head oracle
                (if created = true then (git_stash_pop oracle s).2 else s)).2) actual
            rw [hc] at hstep
            apply hstep
            rw [branches_stage_loop, branches_reset_head]
            cases created with
            | false => simpa using hsome
            | true => simp [branches_stash_pop, hsome]
          rw [← h.2]
          cases rp with
          | ok u4 => simp [branches_stash_pop, hbr8, hs6]
          | error e4 => simp [hbr8, hs6]

/-- A successful main sequence ends on the base branch. -/
theorem main_ok_current (oracle : Nat → Bool) (bn : String) (safe : List String)
    (msg strat base : String) (s : RepoState) (b : Bool) (t : RepoState)
    (h : cbac_main oracle bn safe msg strat base s = (Except.ok b, t)) :
    t.current = base := by
  simp only [cbac_main] at h
  rcases hres : resolve_branch oracle bn base
      (git_stash_push oracle ("redgit-temp-" ++ bn) s).2 with ⟨rr, tr⟩
  rw [hres] at h
  cases rr with
  | error e => simp at h
  | ok a =>
    simp only at h
    exact (after_ok_state oracle a _ bn safe msg strat base tr b t h).1

/-- A call that returns true ends on the base branch. -/
theorem create_true_current (excl : String → Bool) (oracle : Nat → Bool)
    (bn : String) (files : List String) (msg strat base : String)
    (s t : RepoState)
    (h : create_branch_and_commit excl oracle bn files msg strat base s =
      (Except.ok true, t)) : t.current = base := by
  simp only [create_branch_and_commit] at h
  by_cases he : safe_files excl s files = []
  · rw [if_pos he] at h
    simp at h
  · rw [if_neg he] at h
    rcases hm : cbac_main oracle bn (safe_files excl s files) msg strat base s
      with ⟨rm, tm⟩
    rw [hm] at h
    cases rm with
    | ok b =>
      simp only [Prod.mk.injEq] at h
      exact h.2 ▸ main_ok_current oracle bn (safe_files excl s files) msg strat
        base s b tm hm
    | error e => simp at h

theorem afterOps_no_merge (actual bn : String) (safe : List String)
    (msg strat base : String) (op : GitOp) (hs : strat ≠ "local-merge")
    (h : afterOpsOf actual bn safe msg strat base op) :
    (∀ b m, op ≠ GitOp.mergeNoFF b m) ∧ (∀ b, op ≠ GitOp.mergeFF b) ∧
    (∀ b, op ≠ GitOp.deleteBranch b) := by
  rcases h with h2 | h2 | h2 | h2 | h2 | h2 | h2
  · subst h2; exact ⟨fun b m => by simp, fun b => by simp, fun b => by simp⟩
  · subst h2; exact ⟨fun b m => by simp, fun b => by simp, fun b => by simp⟩
  · obtain ⟨f, hf, h2⟩ := h2
    subst h2; exact ⟨fun b m => by simp, fun b => by simp, fun b => by simp⟩
  · subst h2; exact ⟨fun b m => by simp, fun b => by simp, fun b => by simp⟩
  · subst h2; exact ⟨fun b m => by simp, fun b => by simp, fun b => by simp⟩
  · subst h2; exact ⟨fun b m => by simp, fun b => by simp, fun b => by simp⟩
  · exact absurd h2.1 hs

theorem afterOps_merge_args (actual bn : String) (safe : List String)
    (msg strat base : String) (op : GitOp)
    (h : afterOpsOf actual bn safe msg strat base op) :
    (∀ b m, op = GitOp.mergeNoFF b m → b = actual) ∧
    (∀ b, op = GitOp.mergeFF b → b = actual) ∧
    (∀ b, op = GitOp.deleteBranch b → b = actual) := by
  rcases h with h2 | h2 | h2 | h2 | h2 | h2 | h2
  · subst h2
    exact ⟨fun b m hq => by simp at hq, fun b hq => by simp at hq,
      fun b hq => by simp at hq⟩
  · subst h2
    exact ⟨fun b m hq => by simp at hq, fun b hq => by simp at hq,
      fun b hq => by simp at hq⟩
  · obtain ⟨f, hf, h2⟩ := h2
    subst h2
    exact ⟨fun b m hq => by simp at hq, fun b hq => by simp at hq,
      fun b hq => by simp at hq⟩
  · subst h2
    exact ⟨fun b m hq => by simp at hq, fun b hq => by simp at hq,
      fun b hq => by simp at hq⟩
  · subst h2
    exact ⟨fun b m hq => by simp at hq, fun b hq => by simp at hq,
      fun b hq => by simp at hq⟩
  · subst h2
    exact ⟨fun b m hq => by simp at hq, fun b hq => by simp at hq,
      fun b hq => by simp at hq⟩
  · rcases h2.2 with h3 | h3 | h3 <;> subst h3
    · refine ⟨fun b m hq => ?_, fun b hq => by simp at hq,
        fun b hq => by simp at hq⟩
      simp only [GitOp.mergeNoFF.injEq] at hq
      exact hq.1.symm
    · refine ⟨fun b m hq => by simp at hq, fun b hq => ?_,
        fun b hq => by simp at hq⟩
      simp only [GitOp.mergeFF.injEq] at hq
      exact hq.symm
    · refine ⟨fun b m hq => by simp at hq, fun b hq => by simp at hq,
        fun b hq => ?_⟩
      simp only [GitOp.deleteBranch.injEq] at hq
      exact hq.symm

/-- C6: on a branch-name collision `create_branch_and_commit` first
attempts a plain checkout of the existing branch; if that fails it
creates the single suffixed alternate `branchName-v2` from the base; if
that creation also fails the whole main sequence fails fatally with that
error; and the actual branch name so resolved (tracked separately from
the requested name) is the only name ever used by the merge and the
branch deletion. -/
theorem c6_branch_collision (oracle : Nat → Bool) (bn base : String)
    (s : RepoState) :
    (∀ t1, git_checkout_new oracle bn base s = (Except.ok (), t1) →
      resolve_branch oracle bn base s = (Except.ok bn, t1)) ∧
    (∀ e1 t1 t2, git_checkout_new oracle bn base s = (Except.error e1, t1) →
      git_checkout oracle bn t1 = (Except.ok (), t2) →
      resolve_branch oracle bn base s = (Except.ok bn, t2)) ∧
    (∀ e1 t1 e2 t2 t3, git_checkout_new oracle bn base s = (Except.error e1, t1) →
      git_checkout oracle bn t1 = (Except.error e2, t2) →
      git_checkout_new oracle (bn ++ "-v2") base t2 = (Except.ok (), t3) →
      resolve_branch oracle bn base s = (Except.ok (bn ++ "-v2"), t3)) ∧
    (∀ e1 t1 e2 t2 e3 t3, git_checkout_new oracle bn base s = (Except.error e1, t1) →
      git_checkout oracle bn t1 = (Except.error e2, t2) →
      git_checkout_new oracle (bn ++ "-v2") base t2 = (Except.error e3, t3) →
      resolve_branch oracle bn base s = (Except.error e3, t3)) ∧
    (∀ safe msg strat e t,
      resolve_branch oracle bn base
        (git_stash_push oracle ("redgit-temp-" ++ bn) s).2 = (Except.error e, t) →
      cbac_main oracle bn safe msg strat base s = (Except.error e, t)) ∧
    (∀ actual created safe msg strat s2,
      OpsBound (fun op => (∀ b m, op = GitOp.mergeNoFF b m → b = actual) ∧
        (∀ b, op = GitOp.mergeFF b → b = actual) ∧
        (∀ b, op = GitOp.deleteBranch b → b = actual)) s2
        (cbac_after_branch oracle actual created bn safe msg strat base s2).2) := by
  refine ⟨?_, ?_, ?_, ?_, ?_, ?_⟩
  · intro t1 h
    simp [resolve_branch, h]
  · intro e1 t1 t2 h1 h2
    simp [resolve_branch, h1, h2]
  · intro e1 t1 e2 t2 t3 h1 h2 h3
    simp [resolve_branch, h1, h2, h3]
  · intro e1 t1 e2 t2 e3 t3 h1 h2 h3
    simp [resolve_branch, h1, h2, h3]
  · intro safe msg strat e t h
    simp only [cbac_main, h]
  · intro actual created safe msg strat s2
    exact opsBound_mono
      (fun op hop => afterOps_merge_args actual bn safe msg strat base op hop)
      (opsBound_cbac_after_branch oracle actual created bn safe msg strat base s2)

/-- Witness for C6: the requested branch already exists and the plain
checkout raises too, so the single suffixed alternate is created and
becomes the actual branch name. -/
theorem c6_branch_collision_witness :
    git_checkout_new (fun n => n == 1) ("feat") ("main") collisionRepo =
      (Except.error { op := GitOp.checkoutNew ("feat") ("main"), idx := 0 },
        (git_checkout_new (fun n => n == 1) ("feat") ("main") collisionRepo).2) ∧
    resolve_branch (fun n => n == 1) ("feat") ("main") collisionRepo =
      (Except.ok ("feat" ++ "-v2"),
        (git_checkout_new (fun n => n == 1) ("feat" ++ "-v2") ("main")
          (git_checkout (fun n => n == 1) ("feat")
            (git_checkout_new (fun n => n == 1) ("feat") ("main")
              collisionRepo).2).2).2) := by
  refine ⟨by decide, ?_⟩
  exact (c6_branch_collision (fun n => n == 1) ("feat") ("main")
      collisionRepo).2.2.1
    { op := GitOp.checkoutNew ("feat") ("main"), idx := 0 }
    ((git_checkout_new (fun n => n == 1) ("feat") ("main") collisionRepo).2)
    { op := GitOp.checkout ("feat"), idx := 1 }
    ((git_checkout (fun n => n == 1) ("feat")
      (git_checkout_new (fun n => n == 1) ("feat") ("main") collisionRepo).2).2)
    ((git_checkout_new (fun n => n == 1) ("feat" ++ "-v2") ("main")
      (git_checkout (fun n => n == 1) ("feat")
        (git_checkout_new (fun n => n == 1) ("feat") ("main")
          collisionRepo).2).2).2)
    (by decide) (by decide) (by decide)

/-- C7: under the local-merge strategy the engine merges the actual
branch with a no-fast-forward merge carrying the explicit message
`Merge <actual>`, falls back to a plain merge when the no-ff merge
fails (whose failure is fatal), then deletes the merged branch
best-effort (the delete's result is discarded, so its failure is
non-fatal); under the merge-request strategy no merge and no delete are
ever attempted, a successful run ends checked out on the base branch,
and the feature branch present at entry is still present at exit. -/
theorem c7_strategy_application (oracle : Nat → Bool) (actual base : String)
    (s : RepoState) :
    (∀ t1, git_merge_noff oracle actual ("Merge " ++ actual) s =
        (Except.ok (), t1) →
      merge_and_delete oracle actual s =
        (Except.ok (), (git_delete_branch oracle actual t1).2)) ∧
    (∀ e1 t1 t2, git_merge_noff oracle actual ("Merge " ++ actual) s =
        (Except.error e1, t1) →
      git_merge_ff oracle actual t1 = (Except.ok (), t2) →
      merge_and_delete oracle actual s =
        (Except.ok (), (git_delete_branch oracle actual t2).2)) ∧
    (∀ e1 t1 e2 t2, git_merge_noff oracle actual ("Merge " ++ actual) s =
        (Except.error e1, t1) →
      git_merge_ff oracle actual t1 = (Except.error e2, t2) →
      merge_and_delete oracle actual s = (Except.error e2, t2)) ∧
    (∀ created bn safe msg s2,
      OpsBound (fun op => (∀ b m, op ≠ GitOp.mergeNoFF b m) ∧
        (∀ b, op ≠ GitOp.mergeFF b) ∧ (∀ b, op ≠ GitOp.deleteBranch b)) s2
        (cbac_after_branch oracle actual created bn safe msg "merge-request"
          base s2).2 ∧
      (∀ b t, cbac_after_branch oracle actual created bn safe msg
          "merge-request" base s2 = (Except.ok b, t) →
        t.current = base ∧
        ((lookupBranch s2.branches actual).isSome →
          (lookupBranch t.branches actual).isSome))) := by
  refine ⟨?_, ?_, ?_, ?_⟩
  · intro t1 h
    simp [merge_and_delete, h]
  · intro e1 t1 t2 h1 h2
    simp [merge_and_delete, h1, h2]
  · intro e1 t1 e2 t2 h1 h2
    simp [merge_and_delete, h1, h2]
  · intro created bn safe msg s2
    constructor
    · exact opsBound_mono
        (fun op hop => afterOps_no_merge actual bn safe msg "merge-request"
          base op (by decide) hop)
        (opsBound_cbac_after_branch oracle actual created bn safe msg
          "merge-request" base s2)
    · intro b t h
      have := after_ok_state oracle actual created bn safe msg "merge-request"
        base s2 b t h
      exact ⟨this.1, this.2 (by decide)⟩

/-- Witness for C7: a concrete local-merge run in which the no-ff merge
succeeds and the branch is then deleted. -/
theorem c7_strategy_application_witness :
    git_merge_noff allOk ("feat") ("Merge " ++ "feat")
      { branches := [("feat", [("a.py", "new")]), ("main", [("a.py", "old")])],
        current := "main", workTree := [("a.py", "old")],
        index := [("a.py", "old")], stash := [], commits := [],
        trace := [], opCount := 0 } =
      (Except.ok (),
        (git_merge_noff allOk ("feat") ("Merge " ++ "feat")
          { branches := [("feat", [("a.py", "new")]), ("main", [("a.py", "old")])],
            current := "main", workTree := [("a.py", "old")],
            index := [("a.py", "old")], stash := [], commits := [],
            trace := [], opCount := 0 }).2) ∧
    merge_and_delete allOk ("feat")
      { branches := [("feat", [("a.py", "new")]), ("main", [("a.py", "old")])],
        current := "main", workTree := [("a.py", "old")],
        index := [("a.py", "old")], stash := [], commits := [],
        trace := [], opCount := 0 } =
      (Except.ok (),
        (git_delete_branch allOk ("feat")
          (git_merge_noff allOk ("feat") ("Merge " ++ "feat")
            { branches := [("feat", [("a.py", "new")]),
                ("main", [("a.py", "old")])],
              current := "main", workTree := [("a.py", "old")],
              index := [("a.py", "old")], stash := [], commits := [],
              trace := [], opCount := 0 }).2).2) := by
  refine ⟨by decide, ?_⟩
  exact (c7_strategy_application allOk ("feat") ("main") _).1 _ (by decide)

theorem afterOps_checkout_new (actual bn : String) (safe : List String)
    (msg strat base : String) (op : GitOp)
    (h : afterOpsOf actual bn safe msg strat base op) :
    ∀ n b2, op = GitOp.checkoutNew n b2 → b2 = base := by
  rcases h with h2 | h2 | h2 | h2 | h2 | h2 | h2
  · subst h2; exact fun n b2 hq => by simp at hq
  · subst h2; exact fun n b2 hq => by simp at hq
  · obtain ⟨f, hf, h2⟩ := h2
    subst h2; exact fun n b2 hq => by simp at hq
  · subst h2; exact fun n b2 hq => by simp at hq
  · subst h2; exact fun n b2 hq => by simp at hq
  · subst h2; exact fun n b2 hq => by simp at hq
  · rcases h2.2 with h3 | h3 | h3 <;> subst h3 <;>
      exact fun n b2 hq => by simp at hq

theorem createOps_checkout_new (bn : String) (safe : List String)
    (msg strat base : String) (op : GitOp)
    (h : createOpsOf bn safe msg strat base op) :
    ∀ n b2, op = GitOp.checkoutNew n b2 → b2 = base := by
  rcases h with hm | hr
  · rcases hm with h1 | h1 | h1 | h1
    · subst h1; exact fun n b2 hq => by simp at hq
    · rcases h1 with h2 | h2 | h2
      · subst h2
        intro n b2 hq
        simp only [GitOp.checkoutNew.injEq] at hq
        exact hq.2.symm
      · subst h2; exact fun n b2 hq => by simp at hq
      · subst h2
        intro n b2 hq
        simp only [GitOp.checkoutNew.injEq] at hq
        exact hq.2.symm
    · exact afterOps_checkout_new bn bn safe msg strat base op h1
    · exact afterOps_checkout_new (bn ++ "-v2") bn safe msg strat base op h1
  · rcases hr with h2 | h2 <;> subst h2 <;>
      exact fun n b2 hq => by simp at hq

/-- C2 (amended): `original_branch` is the branch recorded when `GitOps`
is constructed, and it is the base every branch creation uses; every call
that returns true ends with it checked out; after a caught exception the
same holds provided the best-effort recovery checkout succeeds (the code
only attempts that checkout, swallowing its failure, so a failed recovery
can leave another branch checked out). -/
theorem c2_branch_restoration (excl : String → Bool) (oracle : Nat → Bool)
    (bn : String) (files : List String) (msg strat base : String)
    (s : RepoState) :
    (∀ t, create_branch_and_commit excl oracle bn files msg strat base s =
      (Except.ok true, t) → t.current = base) ∧
    OpsBound (fun op => ∀ n b2, op = GitOp.checkoutNew n b2 → b2 = base) s
      (create_branch_and_commit excl oracle bn files msg strat base s).2 ∧
    (∀ t u t2, git_checkout oracle base t = (Except.ok u, t2) →
      (cbac_recover oracle base t).current = base) := by
  refine ⟨?_, ?_, ?_⟩
  · intro t h
    exact create_true_current excl oracle bn files msg strat base s t h
  · exact opsBound_mono
      (fun op hop => createOps_checkout_new bn (safe_files excl s files) msg
        strat base op hop)
      (opsBound_create excl oracle bn files msg strat base s)
  · intro t u t2 h
    unfold cbac_recover
    rw [h]
    rw [current_stash_pop]
    exact checkout_result_current oracle base t t2 u h

/-- Witness for C2 at a concrete successful run. -/
theorem c2_branch_restoration_witness :
    (create_branch_and_commit (fun _ => false) allOk ("feat") ["a.py"] ("msg")
      ("local-merge") ("main") dirtyRepo).2.current = "main" :=
  (c2_branch_restoration (fun _ => false) allOk ("feat") ["a.py"] ("msg")
    ("local-merge") ("main") dirtyRepo).1
    (create_branch_and_commit (fun _ => false) allOk ("feat") ["a.py"] ("msg")
      ("local-merge") ("main") dirtyRepo).2 (by decide)

/-- Counterexample to C2 as stated: a run in which the checkout of the
base branch raises and the recovery checkout raises too returns with the
feature branch, not `original_branch`, checked out. -/
theorem c2_branch_restoration_counterexample :
    (create_branch_and_commit (fun _ => false) (fun n => n == 7 || n == 8)
      ("feat") ["a.py"] ("msg") ("local-merge") ("main") dirtyRepo).1 =
      Except.error { op := GitOp.checkout ("main"), idx := 7 } ∧
    (create_branch_and_commit (fun _ => false) (fun n => n == 7 || n == 8)
      ("feat") ["a.py"] ("msg") ("local-merge") ("main") dirtyRepo).2.current =
      "feat" ∧
    ("feat" : String) ≠ "main" := by
  refine ⟨by decide, by decide, by decide⟩

/-! The de-duplicating loop of `get_changes` is the spec's
dedup-then-filter pipeline. -/

theorem add_changes_spec (excl : String → Bool) (inc : Bool)
    (items : List (String × String)) (seen : List String) (acc : List Change) :
    add_changes excl inc items seen acc =
      (seenAfter items seen,
        acc ++ ((dedup_first items seen).filter
          (fun pc => inc || !(excl pc.1))).map
          (fun pc => { file := pc.1, status := pc.2 })) := by
  induction items generalizing seen acc with
  | nil => simp [add_changes, seenAfter, dedup_first]
  | cons it rest ih =>
    obtain ⟨f, st⟩ := it
    by_cases hf : f ∈ seen
    · simp only [add_changes, seenAfter, dedup_first, if_pos hf]
      exact ih seen acc
    · simp only [add_changes, seenAfter, dedup_first, if_neg hf]
      cases hcond : (inc || !(excl f)) with
      | true =>
        rw [if_pos rfl, ih]
        simp [hcond]
      | false =>
        rw [if_neg (by decide), ih]
        simp [hcond]

theorem dedup_first_append (a b : List (String × String)) (seen : List String) :
    dedup_first (a ++ b) seen =
      dedup_first a seen ++ dedup_first b (seenAfter a seen) := by
  induction a generalizing seen with
  | nil => simp [dedup_first, seenAfter]
  | cons it rest ih =>
    obtain ⟨p, st⟩ := it
    by_cases hp : p ∈ seen
    · simp only [List.cons_append, dedup_first, seenAfter, if_pos hp]
      exact ih seen
    · simp only [List.cons_append, dedup_first, seenAfter, if_neg hp]
      simp [ih]

/-- C8: `get_changes` merges exactly the three sources — untracked files
with status U, then unstaged index-vs-worktree differences with status M
or D from the deleted flag, then (only when HEAD is valid) staged
index-vs-HEAD differences with status A, D or M from the new/deleted
flags — first-seen-wins by path in discovery order, with the exclusion
filter applied after the seen-set update; and when the repository has no
commit, the staged comparison is skipped entirely. The embedding is a
pure function of the repository state, so repeated calls with no
intervening mutation are literally the same value. -/
theorem c8_get_changes_characterization (excl : String → Bool) (inc : Bool)
    (s : RepoState) :
    get_changes excl inc s = get_changes_spec excl inc s ∧
    (s.headValid = false →
      get_changes excl inc s =
        ((dedup_first ((untracked_files s).map (fun f => (f, "U")) ++
          diff_index_work s.index s.workTree) []).filter
          (fun pc => inc || !(excl pc.1))).map
          (fun pc => { file := pc.1, status := pc.2 })) := by
  have hmain : get_changes excl inc s = get_changes_spec excl inc s := by
    simp only [get_changes, get_changes_spec]
    rw [add_changes_spec, add_changes_spec, add_changes_spec]
    simp [dedup_first_append, List.filter_append, List.map_append,
      List.append_assoc]
  refine ⟨hmain, fun h => ?_⟩
  rw [hmain]
  simp [get_changes_spec, h]

/-- Witness for C8: in a repository without a commit the staged source is
skipped. -/
theorem c8_get_changes_witness :
    get_changes (fun _ => false) false
      { branches := [], current := "main",
        workTree := [("a.py", "new")], index := [],
        stash := [], commits := [], trace := [], opCount := 0 } =
      ((dedup_first ((untracked_files
        { branches := [], current := "main",
          workTree := [("a.py", "new")], index := [],
          stash := [], commits := [], trace := [], opCount := 0 }).map
            (fun f => (f, "U")) ++
        diff_index_work [] [("a.py", "new")]) []).filter
        (fun pc => false || !((fun _ => false) pc.1))).map
        (fun pc => { file := pc.1, status := pc.2 }) :=
  (c8_get_changes_characterization (fun _ => false) false
    { branches := [], current := "main",
      workTree := [("a.py", "new")], index := [],
      stash := [], commits := [], trace := [], opCount := 0 }).2 (by decide)

/-- The main sequence on a one-branch repository with a dirty tree and a
fresh branch name, under the failure-free oracle: it returns true, ends on
the base branch, preserves every non-selected path's working-tree content,
and every commit it creates has tree `stageFold T0 W safe`. -/
theorem cbac_main_happy (bn base msg strat : String) (safe : List String)
    (W I T0 : Tree) (hbn : bn ≠ base) (hdirty : ¬ (W = T0 ∧ I = T0)) :
    ∃ F : RepoState,
      cbac_main allOk bn safe msg strat base
        { branches := [(base, T0)], current := base, workTree := W, index := I,
          stash := [], commits := [], trace := [], opCount := 0 } =
        (Except.ok true, F) ∧
      F.current = base ∧
      (∀ p, p ∉ safe → treeFind F.workTree p = treeFind W p) ∧
      (∀ pr, pr ∈ F.commits → pr.2 = stageFold T0 W safe) := by
  have hbn2 : base ≠ bn := Ne.symm hbn
  have hd0 : ¬ RepoState.cleanTree
      { branches := [(base, T0)], current := base, workTree := W, index := I,
        stash := [], commits := [], trace := [], opCount := 0 } := by
    simpa [RepoState.cleanTree, RepoState.headTree, lookupBranch] using hdirty
  have e1 : git_stash_push allOk ("redgit-temp-" ++ bn)
      { branches := [(base, T0)], current := base, workTree := W, index := I,
        stash := [], commits := [], trace := [], opCount := 0 } =
      (Except.ok (),
        { branches := [(base, T0)], current := base, workTree := T0, index := T0,
          stash := [(W, I)], commits := [],
          trace := [GitOp.stashPush ("redgit-temp-" ++ bn)], opCount := 1 }) := by
    rw [stash_push_dirty allOk _ _ rfl hd0]
    simp [bump, RepoState.headTree, lookupBranch]
  have e2 : git_checkout_new allOk bn base
      { branches := [(base, T0)], current := base, workTree := T0, index := T0,
        stash := [(W, I)], commits := [],
        trace := [GitOp.stashPush ("redgit-temp-" ++ bn)], opCount := 1 } =
      (Except.ok (),
        { branches := [(bn, T0), (base, T0)], current := bn, workTree := T0,
          index := T0, stash := [(W, I)], commits := [],
          trace := [GitOp.stashPush ("redgit-temp-" ++ bn),
            GitOp.checkoutNew bn base], opCount := 2 }) := by
    rw [checkout_new_ok allOk bn base _ rfl
      (by simp [RepoState.headTree, lookupBranch])
      (by simp [lookupBranch, hbn2])]
    simp [bump, RepoState.headTree, lookupBranch]
  have eres : resolve_branch allOk bn base
      { branches := [(base, T0)], current := base, workTree := T0, index := T0,
        stash := [(W, I)], commits := [],
        trace := [GitOp.stashPush ("redgit-temp-" ++ bn)], opCount := 1 } =
      (Except.ok bn,
        { branches := [(bn, T0), (base, T0)], current := bn, workTree := T0,
          index := T0, stash := [(W, I)], commits := [],
          trace := [GitOp.stashPush ("redgit-temp-" ++ bn),
            GitOp.checkoutNew bn base], opCount := 2 }) := by
    unfold resolve_branch
    rw [e2]
  have e3 : git_stash_pop allOk
      { branches := [(bn, T0), (base, T0)], current := bn, workTree := T0,
        index := T0, stash := [(W, I)], commits := [],
        trace := [GitOp.stashPush ("redgit-temp-" ++ bn),
          GitOp.checkoutNew bn base], opCount := 2 } =
      (Except.ok (),
        { branches := [(bn, T0), (base, T0)], current := bn, workTree := W,
          index := I, stash := [], commits := [],
          trace := [GitOp.stashPush ("redgit-temp-" ++ bn),
            GitOp.checkoutNew bn base, GitOp.stashPop], opCount := 3 }) := by
    rw [stash_pop_cons allOk _ W I [] rfl rfl]
    simp [bump]
  have e4 : git_reset_head allOk
      { branches := [(bn, T0), (base, T0)], current := bn, workTree := W,
        index := I, stash := [], commits := [],
        trace := [GitOp.stashPush ("redgit-temp-" ++ bn),
          GitOp.checkoutNew bn base, GitOp.stashPop], opCount := 3 } =
      (Except.ok (),
        { branches := [(bn, T0), (base, T0)], current := bn, workTree := W,
          index := T0, stash := [], commits := [],
          trace := [GitOp.stashPush ("redgit-temp-" ++ bn),
            GitOp.checkoutNew bn base, GitOp.stashPop, GitOp.resetHead],
          opCount := 4 }) := by
    rw [reset_head_ok allOk _ rfl]
    simp [bump, RepoState.headTree, lookupBranch]
  have e5 : stage_loop allOk safe
      { branches := [(bn, T0), (base, T0)], current := bn, workTree := W,
        index := T0, stash := [], commits := [],
        trace := [GitOp.stashPush ("redgit-temp-" ++ bn),
          GitOp.checkoutNew bn base, GitOp.stashPop, GitOp.resetHead],
        opCount := 4 } =
      { branches := [(bn, T0), (base, T0)], current := bn, workTree := W,
        index := stageFold T0 W safe, stash := [], commits := [],
        trace := GitOp.stashPush ("redgit-temp-" ++ bn) ::
          GitOp.checkoutNew bn base :: GitOp.stashPop :: GitOp.resetHead ::
          List.map GitOp.stageFile safe,
        opCount := 4 + safe.length } := by
    rw [stage_loop_allOk]
    simp
  have e6 : git_commit allOk msg
      { branches := [(bn, T0), (base, T0)], current := bn, workTree := W,
        index := stageFold T0 W safe, stash := [], commits := [],
        trace := GitOp.stashPush ("redgit-temp-" ++ bn) ::
          GitOp.checkoutNew bn base :: GitOp.stashPop :: GitOp.resetHead ::
          List.map GitOp.stageFile safe,
        opCount := 4 + safe.length } =
      (Except.ok (),
        { branches := [(bn, stageFold T0 W safe), (base, T0)], current := bn,
          workTree := W, index := stageFold T0 W safe, stash := [],
          commits := [(msg, stageFold T0 W safe)],
          trace := GitOp.stashPush ("redgit-temp-" ++ bn) ::
            GitOp.checkoutNew bn base :: GitOp.stashPop :: GitOp.resetHead ::
            (List.map GitOp.stageFile safe ++ [GitOp.commitOp msg]),
          opCount := 4 + safe.length + 1 }) := by
    rw [commit_ok allOk msg _ rfl]
    simp [bump, setBranch, hbn]
  by_cases hW : W = stageFold T0 W safe
  · -- every change was selected: the second stash push is a clean no-op
    have hc7 : RepoState.cleanTree
        { branches := [(bn, stageFold T0 W safe), (base, T0)], current := bn,
          workTree := W, index := stageFold T0 W safe, stash := [],
          commits := [(msg, stageFold T0 W safe)],
          trace := GitOp.stashPush ("redgit-temp-" ++ bn) ::
            GitOp.checkoutNew bn base :: GitOp.stashPop :: GitOp.resetHead ::
            (List.map GitOp.stageFile safe ++ [GitOp.commitOp msg]),
          opCount := 4 + safe.length + 1 } := by
      constructor
      · simpa [RepoState.headTree, lookupBranch] using hW
      · simp [RepoState.headTree, lookupBranch]
    have e7 : git_stash_push allOk ("redgit-remaining-" ++ bn)
        { branches := [(bn, stageFold T0 W safe), (base, T0)], current := bn,
          workTree := W, index := stageFold T0 W safe, stash := [],
          commits := [(msg, stageFold T0 W safe)],
          trace := GitOp.stashPush ("redgit-temp-" ++ bn) ::
            GitOp.checkoutNew bn base :: GitOp.stashPop :: GitOp.resetHead ::
            (List.map GitOp.stageFile safe ++ [GitOp.commitOp msg]),
          opCount := 4 + safe.length + 1 } =
        (Except.ok (),
          { branches := [(bn, stageFold T0 W safe), (base, T0)], current := bn,
            workTree := W, index := stageFold T0 W safe, stash := [],
            commits := [(msg, stageFold T0 W safe)],
            trace := GitOp.stashPush ("redgit-temp-" ++ bn) ::
              GitOp.checkoutNew bn base :: GitOp.stashPop :: GitOp.resetHead ::
              (List.map GitOp.stageFile safe ++ [GitOp.commitOp msg,
                GitOp.stashPush ("redgit-remaining-" ++ bn)]),
            opCount := 4 + safe.length + 1 + 1 }) := by
      rw [stash_push_clean allOk _ _ rfl hc7]
      simp [bump]
    have e8 : git_checkout allOk base
        { branches := [(bn, stageFold T0 W safe), (base, T0)], current := bn,
          workTree := W, index := stageFold T0 W safe, stash := [],
          commits := [(msg, stageFold T0 W safe)],
          trace := GitOp.stashPush ("redgit-temp-" ++ bn) ::
            GitOp.checkoutNew bn base :: GitOp.stashPop :: GitOp.resetHead ::
            (List.map GitOp.stageFile safe ++ [GitOp.commitOp msg,
              GitOp.stashPush ("redgit-remaining-" ++ bn)]),
          opCount := 4 + safe.length + 1 + 1 } =
        (Except.ok (),
          { branches := [(bn, stageFold T0 W safe), (base, T0)], current := base,
            workTree := T0, index := T0, stash := [],
            commits := [(msg, stageFold T0 W safe)],
            trace := GitOp.stashPush ("redgit-temp-" ++ bn) ::
              GitOp.checkoutNew bn base :: GitOp.stashPop :: GitOp.resetHead ::
              (List.map GitOp.stageFile safe ++ [GitOp.commitOp msg,
                GitOp.stashPush ("redgit-remaining-" ++ bn),
                GitOp.checkout base]),
            opCount := 4 + safe.length + 1 + 1 + 1 }) := by
      rw [checkout_ok allOk base _ T0 rfl (by simpa using hbn2)
        (by simp [lookupBranch, hbn]) (by
          constructor
          · simpa [RepoState.headTree, lookupBranch] using hW
          · simp [RepoState.headTree, lookupBranch])]
      simp [bump]
    by_cases hstrat : strat = "local-merge"
    · subst hstrat
      have e9 : git_merge_noff allOk bn ("Merge " ++ bn)
          { branches := [(bn, stageFold T0 W safe), (base, T0)], current := base,
            workTree := T0, index := T0, stash := [],
            commits := [(msg, stageFold T0 W safe)],
            trace := GitOp.stashPush ("redgit-temp-" ++ bn) ::
              GitOp.checkoutNew bn base :: GitOp.stashPop :: GitOp.resetHead ::
              (List.map GitOp.stageFile safe ++ [GitOp.commitOp msg,
                GitOp.stashPush ("redgit-remaining-" ++ bn),
                GitOp.checkout base]),
            opCount := 4 + safe.length + 1 + 1 + 1 } =
          (Except.ok (),
            { branches := [(bn, stageFold T0 W safe), (base, stageFold T0 W safe)],
              current := base,
              workTree := stageFold T0 W safe, index := stageFold T0 W safe,
              stash := [],
              commits := [(msg, stageFold T0 W safe),
                ("Merge " ++ bn, stageFold T0 W safe)],
              trace := GitOp.stashPush ("redgit-temp-" ++ bn) ::
                GitOp.checkoutNew bn base :: GitOp.stashPop :: GitOp.resetHead ::
                (List.map GitOp.stageFile safe ++ [GitOp.commitOp msg,
                  GitOp.stashPush ("redgit-remaining-" ++ bn),
                  GitOp.checkout base,
                  GitOp.mergeNoFF bn ("Merge " ++ bn)]),
              opCount := 4 + safe.length + 1 + 1 + 1 + 1 }) := by
        rw [merge_noff_ok allOk bn ("Merge " ++ bn) _ (stageFold T0 W safe) rfl
          (by simp [lookupBranch]) (by
            constructor
            · simp [RepoState.headTree, lookupBranch, hbn]
            · simp [RepoState.headTree, lookupBranch, hbn])]
        simp [bump, setBranch, hbn]
      have e10 : git_delete_branch allOk bn
          { branches := [(bn, stageFold T0 W safe), (base, stageFold T0 W safe)],
            current := base,
            workTree := stageFold T0 W safe, index := stageFold T0 W safe,
            stash := [],
            commits := [(msg, stageFold T0 W safe),
              ("Merge " ++ bn, stageFold T0 W safe)],
            trace := GitOp.stashPush ("redgit-temp-" ++ bn) ::
              GitOp.checkoutNew bn base :: GitOp.stashPop :: GitOp.resetHead ::
              (List.map GitOp.stageFile safe ++ [GitOp.commitOp msg,
                GitOp.stashPush ("redgit-remaining-" ++ bn),
                GitOp.checkout base,
                GitOp.mergeNoFF bn ("Merge " ++ bn)]),
            opCount := 4 + safe.length + 1 + 1 + 1 + 1 } =
          (Except.ok (),
            { branches := [(base, stageFold T0 W safe)],
              current := base,
              workTree := stageFold T0 W safe, index := stageFold T0 W safe,
              stash := [],
              commits := [(msg, stageFold T0 W safe),
                ("Merge " ++ bn, stageFold T0 W safe)],
              trace := GitOp.stashPush ("redgit-temp-" ++ bn) ::
                GitOp.checkoutNew bn base :: GitOp.stashPop :: GitOp.resetHead ::
                (List.map GitOp.stageFile safe ++ [GitOp.commitOp msg,
                  GitOp.stashPush ("redgit-remaining-" ++ bn),
                  GitOp.checkout base,
                  GitOp.mergeNoFF bn ("Merge " ++ bn),
                  GitOp.deleteBranch bn]),
              opCount := 4 + safe.length + 1 + 1 + 1 + 1 + 1 }) := by
        rw [delete_branch_ok allOk bn _ (stageFold T0 W safe) rfl
          (by simpa using hbn) (by simp [lookupBranch])]
        simp [bump, removeBranch]
      have e11 : git_stash_pop allOk
          { branches := [(base, stageFold T0 W safe)],
            current := base,
            workTree := stageFold T0 W safe, index := stageFold T0 W safe,
            stash := [],
            commits := [(msg, stageFold T0 W safe),
              ("Merge " ++ bn, stageFold T0 W safe)],
            trace := GitOp.stashPush ("redgit-temp-" ++ bn) ::
              GitOp.checkoutNew bn base :: GitOp.stashPop :: GitOp.resetHead ::
              (List.map GitOp.stageFile safe ++ [GitOp.commitOp msg,
                GitOp.stashPush ("redgit-remaining-" ++ bn),
                GitOp.checkout base,
                GitOp.mergeNoFF bn ("Merge " ++ bn),
                GitOp.deleteBranch bn]),
            opCount := 4 + safe.length + 1 + 1 + 1 + 1 + 1 } =
          (Except.error ⟨GitOp.stashPop, 4 + safe.length + 1 + 1 + 1 + 1 + 1⟩,
            bump GitOp.stashPop
              { branches := [(base, stageFold T0 W safe)],
                current := base,
                workTree := stageFold T0 W safe, index := stageFold T0 W safe,
                stash := [],
                commits := [(msg, stageFold T0 W safe),
                  ("Merge " ++ bn, stageFold T0 W safe)],
                trace := GitOp.stashPush ("redgit-temp-" ++ bn) ::
                  GitOp.checkoutNew bn base :: GitOp.stashPop :: GitOp.resetHead ::
                  (List.map GitOp.stageFile safe ++ [GitOp.commitOp msg,
                    GitOp.stashPush ("redgit-remaining-" ++ bn),
                    GitOp.checkout base,
                    GitOp.mergeNoFF bn ("Merge " ++ bn),
                    GitOp.deleteBranch bn]),
                opCount := 4 + safe.length + 1 + 1 + 1 + 1 + 1 }) :=
        stash_pop_nil allOk _ rfl rfl
      refine ⟨bump GitOp.stashPop
        { branches := [(base, stageFold T0 W safe)],
          current := base,
          workTree := stageFold T0 W safe, index := stageFold T0 W safe,
          stash := [],
          commits := [(msg, stageFold T0 W safe),
            ("Merge " ++ bn, stageFold T0 W safe)],
          trace := GitOp.stashPush ("redgit-temp-" ++ bn) ::
            GitOp.checkoutNew bn base :: GitOp.stashPop :: GitOp.resetHead ::
            (List.map GitOp.stageFile safe ++ [GitOp.commitOp msg,
              GitOp.stashPush ("redgit-remaining-" ++ bn),
              GitOp.checkout base,
              GitOp.mergeNoFF bn ("Merge " ++ bn),
              GitOp.deleteBranch bn]),
          opCount := 4 + safe.length + 1 + 1 + 1 + 1 + 1 }, ?_, ?_, ?_, ?_⟩
      · simp [cbac_main, cbac_after_branch, merge_and_delete,
          e1, eres, e3, e4, e5, e6, e7, e8, e9, e10, e11]
      · simp [bump]
      · intro p hp
        simp only [bump]
        conv_rhs => rw [hW]
      · intro pr hpr
        simp only [bump, List.mem_cons, List.not_mem_nil, or_false] at hpr
        rcases hpr with h | h
        · rw [h]
        · rw [h]
    · -- any other strategy: no merge, no delete
      have e11 : git_stash_pop allOk
          { branches := [(bn, stageFold T0 W safe), (base, T0)], current := base,
            workTree := T0, index := T0, stash := [],
            commits := [(msg, stageFold T0 W safe)],
            trace := GitOp.stashPush ("redgit-temp-" ++ bn) ::
              GitOp.checkoutNew bn base :: GitOp.stashPop :: GitOp.resetHead ::
              (List.map GitOp.stageFile safe ++ [GitOp.commitOp msg,
                GitOp.stashPush ("redgit-remaining-" ++ bn),
                GitOp.checkout base]),
            opCount := 4 + safe.length + 1 + 1 + 1 } =
          (Except.error ⟨GitOp.stashPop, 4 + safe.length + 1 + 1 + 1⟩,
            bump GitOp.stashPop
              { branches := [(bn, stageFold T0 W safe), (base, T0)],
                current := base,
                workTree := T0, index := T0, stash := [],
                commits := [(msg, stageFold T0 W safe)],
                trace := GitOp.stashPush ("redgit-temp-" ++ bn) ::
                  GitOp.checkoutNew bn base :: GitOp.stashPop :: GitOp.resetHead ::
                  (List.map GitOp.stageFile safe ++ [GitOp.commitOp msg,
                    GitOp.stashPush ("redgit-remaining-" ++ bn),
                    GitOp.checkout base]),
                opCount := 4 + safe.length + 1 + 1 + 1 }) :=
        stash_pop_nil allOk _ rfl rfl
      refine ⟨bump GitOp.stashPop
        { branches := [(bn, stageFold T0 W safe), (base, T0)], current := base,
          workTree := T0, index := T0, stash := [],
          commits := [(msg, stageFold T0 W safe)],
          trace := GitOp.stashPush ("redgit-temp-" ++ bn) ::
            GitOp.checkoutNew bn base :: GitOp.stashPop :: GitOp.resetHead ::
            (List.map GitOp.stageFile safe ++ [GitOp.commitOp msg,
              GitOp.stashPush ("redgit-remaining-" ++ bn),
              GitOp.checkout base]),
          opCount := 4 + safe.length + 1 + 1 + 1 }, ?_, ?_, ?_, ?_⟩
      · simp [cbac_main, cbac_after_branch, hstrat,
          e1, eres, e3, e4, e5, e6, e7, e8, e11]
      · simp [bump]
      · intro p hp
        simp only [bump]
        conv_rhs => rw [hW]
        rw [stageFold_not_mem T0 W safe p hp]
      · intro pr hpr
        simp only [bump, List.mem_cons, List.not_mem_nil, or_false] at hpr
        rw [hpr]
  · -- some changes were not selected: the second stash push stores them
    have hd7 : ¬ RepoState.cleanTree
        { branches := [(bn, stageFold T0 W safe), (base, T0)], current := bn,
          workTree := W, index := stageFold T0 W safe, stash := [],
          commits := [(msg, stageFold T0 W safe)],
          trace := GitOp.stashPush ("redgit-temp-" ++ bn) ::
            GitOp.checkoutNew bn base :: GitOp.stashPop :: GitOp.resetHead ::
            (List.map GitOp.stageFile safe ++ [GitOp.commitOp msg]),
          opCount := 4 + safe.length + 1 } := by
      intro hc
      apply hW
      have := hc.1
      simpa [RepoState.headTree, lookupBranch] using this
    have e7 : git_stash_push allOk ("redgit-remaining-" ++ bn)
        { branches := [(bn, stageFold T0 W safe), (base, T0)], current := bn,
          workTree := W, index := stageFold T0 W safe, stash := [],
          commits := [(msg, stageFold T0 W safe)],
          trace := GitOp.stashPush ("redgit-temp-" ++ bn) ::
            GitOp.checkoutNew bn base :: GitOp.stashPop :: GitOp.resetHead ::
            (List.map GitOp.stageFile safe ++ [GitOp.commitOp msg]),
          opCount := 4 + safe.length + 1 } =
        (Except.ok (),
          { branches := [(bn, stageFold T0 W safe), (base, T0)], current := bn,
            workTree := stageFold T0 W safe, index := stageFold T0 W safe,
            stash := [(W, stageFold T0 W safe)],
            commits := [(msg, stageFold T0 W safe)],
            trace := GitOp.stashPush ("redgit-temp-" ++ bn) ::
              GitOp.checkoutNew bn base :: GitOp.stashPop :: GitOp.resetHead ::
              (List.map GitOp.stageFile safe ++ [GitOp.commitOp msg,
                GitOp.stashPush ("redgit-remaining-" ++ bn)]),
            opCount := 4 + safe.length + 1 + 1 }) := by
      rw [stash_push_dirty allOk _ _ rfl hd7]
      simp [bump, RepoState.headTree, lookupBranch]
    have e8 : git_checkout allOk base
        { branches := [(bn, stageFold T0 W safe), (base, T0)], current := bn,
          workTree := stageFold T0 W safe, index := stageFold T0 W safe,
          stash := [(W, stageFold T0 W safe)],
          commits := [(msg, stageFold T0 W safe)],
          trace := GitOp.stashPush ("redgit-temp-" ++ bn) ::
            GitOp.checkoutNew bn base :: GitOp.stashPop :: GitOp.resetHead ::
            (List.map GitOp.stageFile safe ++ [GitOp.commitOp msg,
              GitOp.stashPush ("redgit-remaining-" ++ bn)]),
          opCount := 4 + safe.length + 1 + 1 } =
        (Except.ok (),
          { branches := [(bn, stageFold T0 W safe), (base, T0)], current := base,
            workTree := T0, index := T0,
            stash := [(W, stageFold T0 W safe)],
            commits := [(msg, stageFold T0 W safe)],
            trace := GitOp.stashPush ("redgit-temp-" ++ bn) ::
              GitOp.checkoutNew bn base :: GitOp.stashPop :: GitOp.resetHead ::
              (List.map GitOp.stageFile safe ++ [GitOp.commitOp msg,
                GitOp.stashPush ("redgit-remaining-" ++ bn),
                GitOp.checkout base]),
            opCount := 4 + safe.length + 1 + 1 + 1 }) := by
      rw [checkout_ok allOk base _ T0 rfl (by simpa using hbn2)
        (by simp [lookupBranch, hbn]) (by
          constructor
          · simp [RepoState.headTree, lookupBranch]
          · simp [RepoState.headTree, lookupBranch])]
      simp [bump]
    by_cases hstrat : strat = "local-merge"
    · subst hstrat
      have e9 : git_merge_noff allOk bn ("Merge " ++ bn)
          { branches := [(bn, stageFold T0 W safe), (base, T0)], current := base,
            workTree := T0, index := T0,
            stash := [(W, stageFold T0 W safe)],
            commits := [(msg, stageFold T0 W safe)],
            trace := GitOp.stashPush ("redgit-temp-" ++ bn) ::
              GitOp.checkoutNew bn base :: GitOp.stashPop :: GitOp.resetHead ::
              (List.map GitOp.stageFile safe ++ [GitOp.commitOp msg,
                GitOp.stashPush ("redgit-remaining-" ++ bn),
                GitOp.checkout base]),
            opCount := 4 + safe.length + 1 + 1 + 1 } =
          (Except.ok (),
            { branches := [(bn, stageFold T0 W safe), (base, stageFold T0 W safe)],
              current := base,
              workTree := stageFold T0 W safe, index := stageFold T0 W safe,
              stash := [(W, stageFold T0 W safe)],
              commits := [(msg, stageFold T0 W safe),
                ("Merge " ++ bn, stageFold T0 W safe)],
              trace := GitOp.stashPush ("redgit-temp-" ++ bn) ::
                GitOp.checkoutNew bn base :: GitOp.stashPop :: GitOp.resetHead ::
                (List.map GitOp.stageFile safe ++ [GitOp.commitOp msg,
                  GitOp.stashPush ("redgit-remaining-" ++ bn),
                  GitOp.checkout base,
                  GitOp.mergeNoFF bn ("Merge " ++ bn)]),
              opCount := 4 + safe.length + 1 + 1 + 1 + 1 }) := by
        rw [merge_noff_ok allOk bn ("Merge " ++ bn) _ (stageFold T0 W safe) rfl
          (by simp [lookupBranch]) (by
            constructor
            · simp [RepoState.headTree, lookupBranch, hbn]
            · simp [RepoState.headTree, lookupBranch, hbn])]
        simp [bump, setBranch, hbn]
      have e10 : git_delete_branch allOk bn
          { branches := [(bn, stageFold T0 W safe), (base, stageFold T0 W safe)],
            current := base,
            workTree := stageFold T0 W safe, index := stageFold T0 W safe,
            stash := [(W, stageFold T0 W safe)],
            commits := [(msg, stageFold T0 W safe),
              ("Merge " ++ bn, stageFold T0 W safe)],
            trace := GitOp.stashPush ("redgit-temp-" ++ bn) ::
              GitOp.checkoutNew bn base :: GitOp.stashPop :: GitOp.resetHead ::
              (List.map GitOp.stageFile safe ++ [GitOp.commitOp msg,
                GitOp.stashPush ("redgit-remaining-" ++ bn),
                GitOp.checkout base,
                GitOp.mergeNoFF bn ("Merge " ++ bn)]),
            opCount := 4 + safe.length + 1 + 1 + 1 + 1 } =
          (Except.ok (),
            { branches := [(base, stageFold T0 W safe)],
              current := base,
              workTree := stageFold T0 W safe, index := stageFold T0 W safe,
              stash := [(W, stageFold T0 W safe)],
              commits := [(msg, stageFold T0 W safe),
                ("Merge " ++ bn, stageFold T0 W safe)],
              trace := GitOp.stashPush ("redgit-temp-" ++ bn) ::
                GitOp.checkoutNew bn base :: GitOp.stashPop :: GitOp.resetHead ::
                (List.map GitOp.stageFile safe ++ [GitOp.commitOp msg,
                  GitOp.stashPush ("redgit-remaining-" ++ bn),
                  GitOp.checkout base,
                  GitOp.mergeNoFF bn ("Merge " ++ bn),
                  GitOp.deleteBranch bn]),
              opCount := 4 + safe.length + 1 + 1 + 1 + 1 + 1 }) := by
        rw [delete_branch_ok allOk bn _ (stageFold T0 W safe) rfl
          (by simpa using hbn) (by simp [lookupBranch])]
        simp [bump, removeBranch]
      have e11 : git_stash_pop allOk
          { branches := [(base, stageFold T0 W safe)],
            current := base,
            workTree := stageFold T0 W safe, index := stageFold T0 W safe,
            stash := [(W, stageFold T0 W safe)],
            commits := [(msg, stageFold T0 W safe),
              ("Merge " ++ bn, stageFold T0 W safe)],
            trace := GitOp.stashPush ("redgit-temp-" ++ bn) ::
              GitOp.checkoutNew bn base :: GitOp.stashPop :: GitOp.resetHead ::
              (List.map GitOp.stageFile safe ++ [GitOp.commitOp msg,
                GitOp.stashPush ("redgit-remaining-" ++ bn),
                GitOp.checkout base,
                GitOp.mergeNoFF bn ("Merge " ++ bn),
                GitOp.deleteBranch bn]),
            opCount := 4 + safe.length + 1 + 1 + 1 + 1 + 1 } =
          (Except.ok (),
            { branches := [(base, stageFold T0 W safe)],
              current := base,
              workTree := W, index := stageFold T0 W safe,
              stash := [],
              commits := [(msg, stageFold T0 W safe),
                ("Merge " ++ bn, stageFold T0 W safe)],
              trace := GitOp.stashPush ("redgit-temp-" ++ bn) ::
                GitOp.checkoutNew bn base :: GitOp.stashPop :: GitOp.resetHead ::
                (List.map GitOp.stageFile safe ++ [GitOp.commitOp msg,
                  GitOp.stashPush ("redgit-remaining-" ++ bn),
                  GitOp.checkout base,
                  GitOp.mergeNoFF bn ("Merge " ++ bn),
                  GitOp.deleteBranch bn, GitOp.stashPop]),
              opCount := 4 + safe.length + 1 + 1 + 1 + 1 + 1 + 1 }) := by
        rw [stash_pop_cons allOk _ W (stageFold T0 W safe) [] rfl rfl]
        simp [bump]
      refine ⟨
        { branches := [(base, stageFold T0 W safe)],
          current := base,
          workTree := W, index := stageFold T0 W safe,
          stash := [],
          commits := [(msg, stageFold T0 W safe),
            ("Merge " ++ bn, stageFold T0 W safe)],
          trace := GitOp.stashPush ("redgit-temp-" ++ bn) ::
            GitOp.checkoutNew bn base :: GitOp.stashPop :: GitOp.resetHead ::
            (List.map GitOp.stageFile safe ++ [GitOp.commitOp msg,
              GitOp.stashPush ("redgit-remaining-" ++ bn),
              GitOp.checkout base,
              GitOp.mergeNoFF bn ("Merge " ++ bn),
              GitOp.deleteBranch bn, GitOp.stashPop]),
          opCount := 4 + safe.length + 1 + 1 + 1 + 1 + 1 + 1 }, ?_, ?_, ?_, ?_⟩
      · simp [cbac_main, cbac_after_branch, merge_and_delete,
          e1, eres, e3, e4, e5, e6, e7, e8, e9, e10, e11]
      · rfl
      · intro p hp
        rfl
      · intro pr hpr
        simp only [List.mem_cons, List.not_mem_nil, or_false] at hpr
        rcases hpr with h | h
        · rw [h]
        · rw [h]
    · -- any other strategy: no merge, no delete
      have e11 : git_stash_pop allOk
          { branches := [(bn, stageFold T0 W safe), (base, T0)], current := base,
            workTree := T0, index := T0,
            stash := [(W, stageFold T0 W safe)],
            commits := [(msg, stageFold T0 W safe)],
            trace := GitOp.stashPush ("redgit-temp-" ++ bn) ::
              GitOp.checkoutNew bn base :: GitOp.stashPop :: GitOp.resetHead ::
              (List.map GitOp.stageFile safe ++ [GitOp.commitOp msg,
                GitOp.stashPush ("redgit-remaining-" ++ bn),
                GitOp.checkout base]),
            opCount := 4 + safe.length + 1 + 1 + 1 } =
          (Except.ok (),
            { branches := [(bn, stageFold T0 W safe), (base, T0)],
              current := base,
              workTree := W, index := stageFold T0 W safe,
              stash := [],
              commits := [(msg, stageFold T0 W safe)],
              trace := GitOp.stashPush ("redgit-temp-" ++ bn) ::
                GitOp.checkoutNew bn base :: GitOp.stashPop :: GitOp.resetHead ::
                (List.map GitOp.stageFile safe ++ [GitOp.commitOp msg,
                  GitOp.stashPush ("redgit-remaining-" ++ bn),
                  GitOp.checkout base, GitOp.stashPop]),
              opCount := 4 + safe.length + 1 + 1 + 1 + 1 }) := by
        rw [stash_pop_cons allOk _ W (stageFold T0 W safe) [] rfl rfl]
        simp [bump]
      refine ⟨
        { branches := [(bn, stageFold T0 W safe), (base, T0)],
          current := base,
          workTree := W, index := stageFold T0 W safe,
          stash := [],
          commits := [(msg, stageFold T0 W safe)],
          trace := GitOp.stashPush ("redgit-temp-" ++ bn) ::
            GitOp.checkoutNew bn base :: GitOp.stashPop :: GitOp.resetHead ::
            (List.map GitOp.stageFile safe ++ [GitOp.commitOp msg,
              GitOp.stashPush ("redgit-remaining-" ++ bn),
              GitOp.checkout base, GitOp.stashPop]),
          opCount := 4 + safe.length + 1 + 1 + 1 + 1 }, ?_, ?_, ?_, ?_⟩
      · simp [cbac_main, cbac_after_branch, hstrat,
          e1, eres, e3, e4, e5, e6, e7, e8, e11]
      · rfl
      · intro p hp
        rfl
      · intro pr hpr
        simp only [List.mem_cons, List.not_mem_nil, or_false] at hpr
        rw [hpr]

/-- C1 (amended): on a working tree with uncommitted changes, a
`create_branch_and_commit` call in which every attempted git operation
behaves normally (failure-free oracle) returns true, and every
non-selected path keeps its exact working-tree content while no commit
created by the call ever contains a non-selected path's working-tree
content — each commit agrees with the base tree on all non-selected
paths. With a spuriously failing final stash pop the call still returns
true but the non-selected content sits in the stash instead of the
working tree, so the claim holds as stated only for runs whose stash
pops succeed. -/
theorem c1_no_data_loss (excl : String → Bool) (bn base msg strat : String)
    (files : List String) (W I T0 : Tree) (s0 : RepoState)
    (hs0 : s0 =
      { branches := [(base, T0)], current := base, workTree := W, index := I,
        stash := [], commits := [], trace := [], opCount := 0 })
    (hbn : bn ≠ base) (hdirty : ¬ (W = T0 ∧ I = T0))
    (hsafe : safe_files excl s0 files ≠ []) :
    (create_branch_and_commit excl allOk bn files msg strat base s0).1 =
      Except.ok true ∧
    (∀ p, p ∉ safe_files excl s0 files →
      treeFind (create_branch_and_commit excl allOk bn files msg strat base
        s0).2.workTree p = treeFind W p ∧
      (∀ pr ∈ (create_branch_and_commit excl allOk bn files msg strat base
        s0).2.commits, treeFind pr.2 p = treeFind T0 p)) := by
  subst hs0
  obtain ⟨F, hF, hcur, hwt, hcm⟩ := cbac_main_happy bn base msg strat
    (safe_files excl
      { branches := [(base, T0)], current := base, workTree := W, index := I,
        stash := [], commits := [], trace := [], opCount := 0 } files)
    W I T0 hbn hdirty
  have hc : create_branch_and_commit excl allOk bn files msg strat base
      { branches := [(base, T0)], current := base, workTree := W, index := I,
        stash := [], commits := [], trace := [], opCount := 0 } =
      (Except.ok true, F) := by
    simp only [create_branch_and_commit]
    rw [if_neg hsafe, hF]
  rw [hc]
  refine ⟨rfl, fun p hp => ⟨hwt p hp, fun pr hpr => ?_⟩⟩
  rw [hcm pr hpr]
  exact stageFold_not_mem T0 W _ p hp

/-- Witness for C1: committing only a.py keeps the untracked b.py intact
in the working tree, and no commit contains b.py. -/
theorem c1_no_data_loss_witness :
    (create_branch_and_commit (fun _ => false) allOk ("feat") ["a.py"] ("msg")
      ("local-merge") ("main") dirtyRepo).1 = Except.ok true ∧
    treeFind (create_branch_and_commit (fun _ => false) allOk ("feat") ["a.py"]
      ("msg") ("local-merge") ("main") dirtyRepo).2.workTree ("b.py") =
      treeFind [("a.py", "new"), ("b.py", "bb")] ("b.py") ∧
    (∀ pr ∈ (create_branch_and_commit (fun _ => false) allOk ("feat") ["a.py"]
      ("msg") ("local-merge") ("main") dirtyRepo).2.commits,
      treeFind pr.2 ("b.py") = treeFind [("a.py", "old")] ("b.py")) := by
  have h := c1_no_data_loss (fun _ => false) ("feat") ("main") ("msg")
    ("local-merge") ["a.py"] [("a.py", "new"), ("b.py", "bb")]
    [("a.py", "old")] [("a.py", "old")] dirtyRepo rfl (by decide) (by decide)
    (by decide)
  have h2 := h.2 ("b.py") (by decide)
  exact ⟨h.1, h2.1, h2.2⟩

/-- Counterexample to C1 as stated: when the final stash pop raises (its
error is swallowed), the call still returns true yet the untracked,
non-selected b.py is no longer present in the working tree — it sits in
a stash entry instead. -/
theorem c1_no_data_loss_counterexample :
    (create_branch_and_commit (fun _ => false) (fun n => n == 10) ("feat")
      ["a.py"] ("msg") ("local-merge") ("main") dirtyRepo).1 =
      Except.ok true ∧
    treeFind dirtyRepo.workTree ("b.py") = some ("bb") ∧
    ("b.py" ∉ safe_files (fun _ => false) dirtyRepo ["a.py"]) ∧
    treeFind (create_branch_and_commit (fun _ => false) (fun n => n == 10)
      ("feat") ["a.py"] ("msg") ("local-merge") ("main") dirtyRepo).2.workTree
      ("b.py") = none := by
  refine ⟨by decide, by decide, by decide, by decide⟩

end Redgit
